import Mathlib

/-!
Verification development for the retrieval-and-caching subsystem of the
`unify-pipelines` repository.  The Python sources are shallowly embedded:

* `Schemas` models `src/rag/schemas.py` (the `ArxivSource`, `SearchMetrics`,
  `ModelMetrics` and `RAGResponse` dataclasses).
* `Formatter` models `AcademicFormatter` of `src/rag/formatter.py`.
* `Retriever` models `MilvusRetriever.retrieve` of `src/rag/retriever.py`.
* `Engine` models `RAGEngine` of `src/rag/engine.py`.
* `AbstractChunk` models `RAGEngine.search_documents` of
  `rag_abstract_chunk.py`.
* `RagCache` models `LRUCache` and `CachedResearchAssistant` of
  `rag_cache.py`.

Python floats are modelled as exact rationals (`Rat`); wall-clock time is
modelled by an uninterpreted stream `clock : Nat → Rat` indexed by the order
of the `time()` calls the Python code executes.  External collaborators
(embedding client, Milvus client, language-model client) are opaque
functions that either return a value or raise; raising Python code is
modelled with `Except String`, the error being the exception's message
(`str(e)`).
-/

set_option autoImplicit false

namespace Schemas

/-- Embeds the `ArxivSource` dataclass of `src/rag/schemas.py`.  The `score`
float is modelled as a rational. -/
structure ArxivSource where
  doc_id : Int
  arxiv_url_link : String
  source_file : String
  year : Int
  category : String
  abstract : String
  text : String
  summary : String
  key_points : String
  technical_terms : String
  relationships : String
  timestamp : Int
  score : Rat
deriving DecidableEq

/-- Embeds the `title` property of `ArxivSource`: strip the
`_embedded.json` suffix; if the first four characters are digits, drop the
five leading characters (year prefix plus separator); replace dashes with
spaces and strip surrounding whitespace. -/
def ArxivSource.title (s : ArxivSource) : String :=
  let clean_name := s.source_file.replace "_embedded.json" ""
  if 4 < clean_name.length ∧ (clean_name.take 4).toList.all Char.isDigit then
    ((clean_name.drop 5).replace "-" " ").trim
  else
    (clean_name.replace "-" " ").trim

/-- Embeds the `SearchMetrics` dataclass of `src/rag/schemas.py`. -/
structure SearchMetrics where
  start_time : Rat
  embedding_time : Rat
  search_time : Rat
  total_time : Rat
  num_results : Nat
  avg_score : Rat
deriving DecidableEq

/-- Embeds the `ModelMetrics` dataclass of `src/rag/schemas.py`; the two
token fields default to `None`. -/
structure ModelMetrics where
  start_time : Rat
  context_time : Rat
  inference_time : Rat
  total_time : Rat
  prompt_tokens : Option Int := none
  completion_tokens : Option Int := none
deriving DecidableEq

/-- Embeds the `RAGResponse` dataclass of `src/rag/schemas.py`; `error`
defaults to `None`. -/
structure RAGResponse where
  question : String
  answer : String
  sources : List ArxivSource
  search_metrics : SearchMetrics
  model_metrics : ModelMetrics
  error : Option String := none
deriving DecidableEq

end Schemas

namespace Formatter

open Schemas

/-- Embeds the bibliography line of `AcademicFormatter.append_bibliography`
(`src/rag/formatter.py`): `- Paper [i]: "title" (year, category). URL: url`,
with the Python `or`-defaults for an empty title or URL. -/
def bibliographyLine (i : Nat) (s : ArxivSource) : String :=
  let title := if s.title = "" then "No Title Provided" else s.title
  let url := if s.arxiv_url_link = "" then "No URL" else s.arxiv_url_link
  "- Paper [" ++ toString i ++ "]: \"" ++ title ++ "\" (" ++ toString s.year ++
    ", " ++ s.category ++ "). URL: " ++ url

/-- Embeds `AcademicFormatter.append_bibliography`: a `Bibliography:` header
followed by one line per source, numbered from 1 in list order. -/
def append_bibliography (sources : List ArxivSource) : String :=
  "Bibliography:\n" ++
    String.intercalate "\n"
      ((List.enumFrom 1 sources).map (fun p => bibliographyLine p.1 p.2))

/-- Embeds the truncation loop of `AcademicFormatter.format_context`
(`src/rag/formatter.py`, lines 99 to 112).  `render` stands for the
`format_source` text-templating method, which is presentation-level and
opaque here (the properties to check quantify over its rendered lengths);
`i` is the 1-based index, `total` the running character count.  A source
whose rendered length would push `total` past `maxLen` stops the loop, so
later sources are dropped whole, never partially rendered. -/
def formatContextParts (render : Nat → ArxivSource → String) (maxLen : Nat) :
    Nat → Nat → List ArxivSource → List String
  | _, _, [] => []
  | i, total, s :: rest =>
    let fs := render i s
    if maxLen < total + fs.length then []
    else fs :: formatContextParts render maxLen (i + 1) (total + fs.length) rest

/-- Embeds `AcademicFormatter.format_context`: the empty-input fallback
string, otherwise the rendered parts joined by blank lines followed by the
bibliography of exactly the included prefix of sources. -/
def format_context (render : Nat → ArxivSource → String) (maxLen : Nat)
    (sources : List ArxivSource) : String :=
  if sources.isEmpty then "No relevant academic papers found."
  else
    let parts := formatContextParts render maxLen 1 0 sources
    String.intercalate "\n\n" parts ++ "\n\n" ++
      append_bibliography (sources.take parts.length)

end Formatter

namespace Retriever

open Schemas

/-- Embeds a Milvus search hit: the requested `output_fields` are optional
attributes (absent fields are defaulted by `getattr`), while `distance` is
always exposed by a valid hit (the collaborator contract). -/
structure Hit where
  doc_id : Option Int := none
  arxiv_url_link : Option String := none
  source_file : Option String := none
  year : Option Int := none
  category : Option String := none
  abstract : Option String := none
  text : Option String := none
  summary : Option String := none
  key_points : Option String := none
  technical_terms : Option String := none
  relationships : Option String := none
  timestamp : Option Int := none
  distance : Rat
deriving DecidableEq

/-- Opaque Milvus collection: `search` takes the query embedding and the
`limit` (`top_k`) and returns the list of per-query hit lists, or raises. -/
structure Collection where
  search : List Rat → Nat → Except String (List (List Hit))

/-- Opaque collaborators of `MilvusRetriever` (`src/rag/retriever.py`):
the embedding client may raise or return a falsy value (`none` or an empty
vector); `connect` may raise or return `False`; `get_collection` may raise
or return `None`. -/
structure Clients where
  get_embedding : String → Except String (Option (List Rat))
  connect : Except String Bool
  get_collection : Except String (Option Collection)

/-- Embeds the per-hit `ArxivSource` construction of
`MilvusRetriever.retrieve` (`src/rag/retriever.py`, lines 136 to 150):
every optional field is defaulted (`getattr(hit, field, default)`), so with
a well-typed hit the construction never raises and the per-hit
`try/except/continue` is unreachable. -/
def mkArxivSource (h : Hit) : ArxivSource where
  doc_id := h.doc_id.getD (-1)
  arxiv_url_link := h.arxiv_url_link.getD ""
  source_file := h.source_file.getD ""
  year := h.year.getD 0
  category := h.category.getD ""
  abstract := h.abstract.getD ""
  text := h.text.getD ""
  summary := h.summary.getD ""
  key_points := h.key_points.getD ""
  technical_terms := h.technical_terms.getD ""
  relationships := h.relationships.getD ""
  timestamp := h.timestamp.getD 0
  score := h.distance

/-- Embeds `MilvusRetriever.retrieve` (`src/rag/retriever.py`, lines 85 to
166).  A falsy embedding raises `ValueError("Failed to generate query
embedding")`; a failed `connect` raises `ConnectionError("Failed to connect
to Milvus")`; a missing collection raises `ValueError("Failed to get
collection")`; collaborator exceptions propagate.  An empty or
empty-headed result list returns `[]`; otherwise every hit of the first
result list is mapped to an `ArxivSource` — no deduplication is performed.
The `finally` block only releases the external collection handle and does
not affect the returned value. -/
def retrieve (c : Clients) (query : String) (top_k : Nat) :
    Except String (List ArxivSource) :=
  match c.get_embedding query with
  | .error e => .error e
  | .ok qe =>
    let query_embedding := qe.getD []
    if query_embedding.isEmpty then .error "Failed to generate query embedding"
    else
      match c.connect with
      | .error e => .error e
      | .ok false => .error "Failed to connect to Milvus"
      | .ok true =>
        match c.get_collection with
        | .error e => .error e
        | .ok none => .error "Failed to get collection"
        | .ok (some coll) =>
          match coll.search query_embedding top_k with
          | .error e => .error e
          | .ok [] => .ok []
          | .ok (first :: _) =>
            if first.isEmpty then .ok []
            else .ok (first.map mkArxivSource)

end Retriever

namespace Engine

open Schemas

/-- A chat message produced by `generate_prompt`. -/
structure ChatMessage where
  role : String
  content : String
deriving DecidableEq

/-- Embeds the shape of the language-model collaborator's response dict:
`choices` is `none` when the `'choices'` key is absent, otherwise the list
of `choices[i]['message']['content']` strings; the two token counts model
`response.get('usage', {}).get(...)`. -/
structure ModelResponse where
  choices : Option (List String) := none
  prompt_tokens : Option Int := none
  completion_tokens : Option Int := none
deriving DecidableEq

/-- The collaborators of `RAGEngine` (`src/rag/engine.py`), each an opaque
function that may raise.  `interact_with_model` returning `.ok none` models
a falsy (absent) response dict. -/
structure RAGEngine where
  retrieve : String → Except String (List ArxivSource)
  format_context : List ArxivSource → Except String String
  generate_prompt : String → String → Except String (List ChatMessage)
  interact_with_model : List ChatMessage → Except String (Option ModelResponse)

/-- Embeds `RAGEngine.retrieve_sources` (`src/rag/engine.py`, lines 55 to
87).  `clock` is the stream of `time()` readings, `t` the index of the next
reading; the returned `Nat` is the next unused index.  On a retrieval
exception the error is re-raised after consuming the two `time()` readings
taken before the call. -/
def retrieve_sources (E : RAGEngine) (clock : Nat → Rat) (t : Nat)
    (query : String) :
    Except String (List ArxivSource × SearchMetrics) × Nat :=
  match E.retrieve query with
  | .error e => (.error e, t + 2)
  | .ok sources =>
    let metrics : SearchMetrics :=
      { start_time := clock t
        embedding_time := clock (t + 2) - clock (t + 1)
        search_time := clock (t + 3) - clock t
        total_time := clock (t + 4) - clock t
        num_results := sources.length
        avg_score :=
          if sources.isEmpty then 0
          else (sources.map (fun s => s.score)).sum / (sources.length : Rat) }
    (.ok (sources, metrics), t + 5)

/-- Embeds `RAGEngine.generate_response` (`src/rag/engine.py`, lines 89 to
137).  The last component counts the `interact_with_model` invocations
(0 or 1).  A falsy response or one without `choices` raises
`ValueError("Invalid model response")`; indexing an empty `choices` raises
`IndexError`, whose message is `list index out of range`. -/
def generate_response (E : RAGEngine) (clock : Nat → Rat) (t : Nat)
    (question context : String) :
    Except String (String × ModelMetrics) × Nat × Nat :=
  match E.generate_prompt question context with
  | .error e => (.error e, t + 2, 0)
  | .ok prompt =>
    match E.interact_with_model prompt with
    | .error e => (.error e, t + 4, 1)
    | .ok none => (.error "Invalid model response", t + 5, 1)
    | .ok (some resp) =>
      match resp.choices with
      | none => (.error "Invalid model response", t + 5, 1)
      | some [] => (.error "list index out of range", t + 5, 1)
      | some (answer :: _) =>
        let metrics : ModelMetrics :=
          { start_time := clock t
            context_time := clock (t + 2) - clock (t + 1)
            inference_time := clock (t + 4) - clock (t + 3)
            total_time := clock (t + 5) - clock t
            prompt_tokens := resp.prompt_tokens
            completion_tokens := resp.completion_tokens }
        (.ok (answer, metrics), t + 6, 1)

/-- The degraded response built in the outer `except` block of
`RAGEngine.answer_question` (`src/rag/engine.py`, lines 182 to 203): a
generic answer, `error` set to the exception's message, and fresh metrics
whose fields are all zero apart from the two `start_time` readings. -/
def errorResponse (clock : Nat → Rat) (t : Nat) (question e : String) :
    RAGResponse where
  question := question
  answer := "An error occurred while processing your question."
  sources := []
  search_metrics :=
    { start_time := clock t, embedding_time := 0, search_time := 0
      total_time := 0, num_results := 0, avg_score := 0 }
  model_metrics :=
    { start_time := clock (t + 1), context_time := 0, inference_time := 0
      total_time := 0 }
  error := some e

/-- Embeds `RAGEngine.answer_question` (`src/rag/engine.py`, lines 139 to
203).  The result triple is the response, the next clock index, and the
number of `interact_with_model` invocations.  The function is total: every
stage exception is caught at this outer boundary and converted into
`errorResponse`, so no exception escapes. -/
def answer_question (E : RAGEngine) (clock : Nat → Rat) (t : Nat)
    (question : String) : RAGResponse × Nat × Nat :=
  match retrieve_sources E clock t question with
  | (.error e, t1) => (errorResponse clock t1 question e, t1 + 2, 0)
  | (.ok (sources, search_metrics), t1) =>
    if sources.isEmpty then
      ({ question := question
         answer := "No relevant academic papers found for your query."
         sources := []
         search_metrics := search_metrics
         model_metrics :=
           { start_time := clock t1, context_time := 0, inference_time := 0
             total_time := 0 } }, t1 + 1, 0)
    else
      match E.format_context sources with
      | .error e => (errorResponse clock t1 question e, t1 + 2, 0)
      | .ok context =>
        match generate_response E clock t1 question context with
        | (.error e, t2, calls) =>
          (errorResponse clock t2 question e, t2 + 2, calls)
        | (.ok (answer, model_metrics), t2, calls) =>
          ({ question := question
             answer := answer
             sources := sources
             search_metrics := search_metrics
             model_metrics := model_metrics }, t2, calls)

/-- The message of the first exception the pipeline raises for a question,
read off the collaborators in the engine's evaluation order (retrieve, the
empty-result check, format, prompt, model call, response validation);
`none` when no stage raises. -/
def firstStageError (E : RAGEngine) (q : String) : Option String :=
  match E.retrieve q with
  | .error e => some e
  | .ok sources =>
    if sources.isEmpty then none
    else
      match E.format_context sources with
      | .error e => some e
      | .ok context =>
        match E.generate_prompt q context with
        | .error e => some e
        | .ok prompt =>
          match E.interact_with_model prompt with
          | .error e => some e
          | .ok none => some "Invalid model response"
          | .ok (some resp) =>
            match resp.choices with
            | none => some "Invalid model response"
            | some [] => some "list index out of range"
            | some (_ :: _) => none

end Engine

namespace AbstractChunk

/-- Embeds the `Source` dataclass of `rag_abstract_chunk.py` (distinct from
`Schemas.ArxivSource`). -/
structure Source where
  doc_id : Int
  file_name : String
  title : String
  abstract : String
  text : String
  summary : String
  key_points : String
  technical_terms : String
  relationships : String
  timestamp : Int
  score : Rat
deriving DecidableEq

/-- Embeds `RAGEngine.extract_paper_title` of `rag_abstract_chunk.py`:
strip the `_embedded.json` suffix, split off a four-digit year prefix when
present, replace dashes with spaces, strip, and append the year in
parentheses when one was found. -/
def extract_paper_title (filename : String) : String :=
  let clean_name := filename.replace "_embedded.json" ""
  if 4 < clean_name.length ∧ (clean_name.take 4).toList.all Char.isDigit then
    ((clean_name.drop 5).replace "-" " ").trim ++ " (" ++ clean_name.take 4 ++ ")"
  else
    (clean_name.replace "-" " ").trim

/-- The `source_file` attribute of a hit as `search_documents` reads it:
`getattr(hit, 'source_file', 'Unknown')`. -/
def hitFile (h : Retriever.Hit) : String :=
  h.source_file.getD "Unknown"

/-- Embeds the per-hit `Source` construction of
`RAGEngine.search_documents` (`rag_abstract_chunk.py`, lines 146 to 158),
with its `getattr` defaults. -/
def mkSource (h : Retriever.Hit) : Source where
  doc_id := h.doc_id.getD (-1)
  file_name := hitFile h
  title := extract_paper_title (hitFile h)
  abstract := h.abstract.getD "No abstract available"
  text := h.text.getD ""
  summary := h.summary.getD ""
  key_points := h.key_points.getD ""
  technical_terms := h.technical_terms.getD ""
  relationships := h.relationships.getD ""
  timestamp := h.timestamp.getD 0
  score := h.distance

/-- Embeds the deduplication loop of `RAGEngine.search_documents`
(`rag_abstract_chunk.py`, lines 133 to 159): `seen` is the `seen_files`
set, a hit whose file was already seen is skipped, otherwise its file is
recorded and the hit becomes a `Source`. -/
def processHits (seen : List String) : List Retriever.Hit → List Source
  | [] => []
  | h :: rest =>
    if hitFile h ∈ seen then processHits seen rest
    else mkSource h :: processHits (hitFile h :: seen) rest

/-- The result-processing phase of `search_documents` applied to the hits
of the first result list: dedup-by-file with an initially empty seen set. -/
def search_documents_dedup (hits : List Retriever.Hit) : List Source :=
  processHits [] hits

/-- Specification-side statement of first-occurrence-wins deduplication
(from the spec: the first occurrence of a given file wins, later duplicates
are dropped): keep a hit exactly when no already-kept hit has its file. -/
def firstWins (hits : List Retriever.Hit) : List Retriever.Hit :=
  hits.foldl
    (fun acc h => if hitFile h ∈ acc.map hitFile then acc else acc ++ [h]) []

end AbstractChunk

namespace RagCache

open Schemas

/-- Embeds the `OrderedDict`-based `LRUCache` of `rag_cache.py` (lines 27
to 55): the entry list is kept in recency order, least recently used
first.  The per-instance lock only serialises accesses and has no effect on
the sequential semantics modelled here. -/
structure LRUCache (V : Type) where
  cache : List (String × V)
  capacity : Nat

/-- Ordered-dict lookup: the value stored at the first entry with the given
key, if any. -/
def lookupKey {V : Type} : List (String × V) → String → Option V
  | [], _ => none
  | p :: rest, k => if p.1 = k then some p.2 else lookupKey rest k

/-- Ordered-dict deletion of the (first) entry with the given key, used to
model `move_to_end` together with an append. -/
def removeKey {V : Type} : List (String × V) → String → List (String × V)
  | [], _ => []
  | p :: rest, k => if p.1 = k then rest else p :: removeKey rest k

/-- Embeds `LRUCache.get`: a miss returns `None` and leaves the cache
unchanged; a hit moves the entry to the most-recently-used end
(`move_to_end`) and returns its value. -/
def LRUCache.get {V : Type} (c : LRUCache V) (key : String) :
    Option V × LRUCache V :=
  match lookupKey c.cache key with
  | none => (none, c)
  | some v => (some v, { c with cache := removeKey c.cache key ++ [(key, v)] })

/-- Embeds `LRUCache.put`: an existing key is moved to the end before the
assignment, the assignment stores the value at the end, and when the size
exceeds the capacity the least-recently-used entry (`popitem(last=False)`,
the front) is evicted. -/
def LRUCache.put {V : Type} (c : LRUCache V) (key : String) (v : V) :
    LRUCache V :=
  let base :=
    match lookupKey c.cache key with
    | some _ => removeKey c.cache key
    | none => c.cache
  let appended := base ++ [(key, v)]
  { c with cache := if c.capacity < appended.length then appended.tail else appended }

/-- An `LRUCache` as freshly constructed: empty entry list, given capacity. -/
def LRUCache.empty (V : Type) (capacity : Nat) : LRUCache V :=
  { cache := [], capacity := capacity }

/-- Sequentially `put` a list of key-value pairs. -/
def putAll {V : Type} (c : LRUCache V) (ks : List (String × V)) : LRUCache V :=
  ks.foldl (fun c p => c.put p.1 p.2) c

/-- Embeds `CachedResearchAssistant._compute_cache_key`: lower-case the
question, collapse whitespace runs (`str.split()` then a space join), and
mark with the `q:` tag. -/
def computeCacheKey (question : String) : String :=
  "q:" ++ String.intercalate " "
    ((question.toLower.split Char.isWhitespace).filter (fun w => w ≠ ""))

/-- Embeds `CachedResearchAssistant._compute_context_key`: sort the doc
ids, then `'_'.join(sorted_ids)`.  The ids handed in by `answer_question`
are the integer `doc_id` fields, and `str.join` over integers raises
`TypeError` on the first item; only an empty id list joins (to the empty
string) without raising. -/
def computeContextKey (doc_ids : List Int) : Except String String :=
  if doc_ids.isEmpty then .ok "ctx:"
  else .error "sequence item 0: expected str instance, int found"

/-- A node of the knowledge graph built by `_build_knowledge_graph`: paper
nodes carry `doc_id` (an int), `title` and `year`; term nodes carry the
term used as the node id.  Since `technical_terms` is a string, iterating
it yields single characters, so a term id is a `Char`.  The Python
membership test compares node ids with `==`, and an int paper id never
equals a one-character string, so the two constructors never collide. -/
inductive KGNode where
  | paper (id : Int) (title : String) (year : Int)
  | term (id : Char)
deriving DecidableEq

/-- A `contains` edge of the knowledge graph (its `type` field is always
the string `contains`). -/
structure KGEdge where
  source : Int
  target : Char
deriving DecidableEq

/-- The graph dict of `_build_knowledge_graph`; the `clusters` entry is
created empty and never written, so it is not carried here. -/
structure KnowledgeGraph where
  nodes : List KGNode
  edges : List KGEdge
deriving DecidableEq

/-- Whether a node's id equals the given character under Python `==`
(false for paper nodes, whose ids are ints). -/
def nodeIdIsChar (ch : Char) : KGNode → Bool
  | KGNode.paper _ _ _ => false
  | KGNode.term c => c = ch

/-- The inner loop of `_build_knowledge_graph` over one source's
`technical_terms` string: for each character, add a term node unless a
node with that id exists, and always append a `contains` edge. -/
def addTerms (g : KnowledgeGraph) (docId : Int) (chars : List Char) :
    KnowledgeGraph :=
  chars.foldl
    (fun g ch =>
      { nodes := if g.nodes.any (nodeIdIsChar ch) then g.nodes
                 else g.nodes ++ [KGNode.term ch]
        edges := g.edges ++ [{ source := docId, target := ch }] })
    g

/-- Embeds `CachedResearchAssistant._build_knowledge_graph` (`rag_cache.py`,
lines 150 to 185): for each source append a paper node, then walk its
`technical_terms` string (`hasattr` is always true on `ArxivSource`)
character by character via `addTerms`. -/
def build_knowledge_graph (sources : List ArxivSource) : KnowledgeGraph :=
  sources.foldl
    (fun g s =>
      addTerms
        { g with nodes := g.nodes ++ [KGNode.paper s.doc_id s.title s.year] }
        s.doc_id s.technical_terms.toList)
    { nodes := [], edges := [] }

/-- The per-paper dict stored in `CachedContext.papers`; on `ArxivSource`
the `hasattr` guards are always true, so `technical_terms` and
`key_points` hold the source's strings. -/
structure PaperInfo where
  title : String
  abstract : String
  year : Int
  category : String
  url : String
  technical_terms : String
  key_points : String
deriving DecidableEq

/-- Dict insertion: overwrite in place when the key exists, else append. -/
def upsert {K V : Type} [DecidableEq K] (m : List (K × V)) (k : K) (v : V) :
    List (K × V) :=
  if m.any (fun p => p.1 = k) then
    m.map (fun p => if p.1 = k then (k, v) else p)
  else m ++ [(k, v)]

/-- Dict lookup for integer-keyed dicts. -/
def lookupInt {V : Type} : List (Int × V) → Int → Option V
  | [], _ => none
  | p :: rest, k => if p.1 = k then some p.2 else lookupInt rest k

/-- The entry appended for a source by `_organize_temporal_data`. -/
structure TemporalEntry where
  id : Int
  title : String
  category : String
  key_points : String
deriving DecidableEq

/-- Embeds `CachedResearchAssistant._organize_temporal_data`: group the
sources by `year` into a year-to-entries dict, appending in source order. -/
def organize_temporal_data (sources : List ArxivSource) :
    List (Int × List TemporalEntry) :=
  sources.foldl
    (fun temporal s =>
      let entry : TemporalEntry :=
        { id := s.doc_id, title := s.title, category := s.category
          key_points := s.key_points }
      match lookupInt temporal s.year with
      | some entries => upsert temporal s.year (entries ++ [entry])
      | none => temporal ++ [(s.year, [entry])])
    []

/-- Embeds the `CachedContext` dataclass of `rag_cache.py`; the datetime
fields are opaque strings supplied by the caller's clock. -/
structure CachedContext where
  papers : List (Int × PaperInfo)
  knowledge_graph : KnowledgeGraph
  temporal_data : List (Int × List TemporalEntry)
  last_accessed : String
  metadata_doc_count : Nat
  metadata_cached_at : String
deriving DecidableEq

/-- The papers map filled by the loop at the end of `_cache_context`. -/
def buildPapers (sources : List ArxivSource) : List (Int × PaperInfo) :=
  sources.foldl
    (fun papers s =>
      upsert papers s.doc_id
        { title := s.title, abstract := s.abstract, year := s.year
          category := s.category, url := s.arxiv_url_link
          technical_terms := s.technical_terms, key_points := s.key_points })
    []

/-- Embeds `CachedResearchAssistant._cache_context` (`rag_cache.py`, lines
94 to 122): the context key is computed first (and its `TypeError`
propagates), then the derived context artifact is stored. -/
def cacheContext (cc : LRUCache CachedContext) (now : String)
    (doc_ids : List Int) (sources : List ArxivSource) :
    Except String (LRUCache CachedContext) :=
  match computeContextKey doc_ids with
  | .error e => .error e
  | .ok key =>
    let context : CachedContext :=
      { papers := buildPapers sources
        knowledge_graph := build_knowledge_graph sources
        temporal_data := organize_temporal_data sources
        last_accessed := now
        metadata_doc_count := doc_ids.length
        metadata_cached_at := now }
    .ok (cc.put key context)

/-- The dict stored by `_cache_response`: the full response plus capture
metadata. -/
structure CacheEntry where
  response : RAGResponse
  timestamp : String
  metadata_sources : List Int
  metadata_cached_at : String
deriving DecidableEq

/-- Embeds `CachedResearchAssistant` of `rag_cache.py`: the wrapped engine
(an opaque `answer_question` that may raise), the two LRU caches, and the
statistics counters. -/
structure CachedResearchAssistant where
  engine : String → Except String RAGResponse
  response_cache : LRUCache CacheEntry
  context_cache : LRUCache CachedContext
  cache_hits : Nat
  cache_misses : Nat
  total_queries : Nat

/-- Embeds `CachedResearchAssistant._cache_response`: store the response
under the normalized-question key together with capture metadata. -/
def cacheResponse (rc : LRUCache CacheEntry) (now question : String)
    (response : RAGResponse) : LRUCache CacheEntry :=
  rc.put (computeCacheKey question)
    { response := response
      timestamp := now
      metadata_sources := response.sources.map (fun s => s.doc_id)
      metadata_cached_at := now }

/-- Embeds `CachedResearchAssistant.answer_question` (`rag_cache.py`,
lines 124 to 148).  The result is the returned response (or the raised
exception's message), the post-call assistant state, and the number of
calls that reached the wrapped engine (0 or 1).  A hit returns the cached
response unchanged; a miss delegates to the engine, stores the response,
and then stores the derived context artifact — whose key computation raises
`TypeError` whenever the response has at least one source, after the
response cache was already updated. -/
def CachedResearchAssistant.answer_question (a : CachedResearchAssistant)
    (now question : String) :
    Except String RAGResponse × CachedResearchAssistant × Nat :=
  let a1 := { a with total_queries := a.total_queries + 1 }
  match a1.response_cache.get (computeCacheKey question) with
  | (some entry, rc) =>
    (.ok entry.response,
      { a1 with response_cache := rc, cache_hits := a1.cache_hits + 1 }, 0)
  | (none, rc) =>
    let a2 := { a1 with response_cache := rc
                        cache_misses := a1.cache_misses + 1 }
    match a2.engine question with
    | .error e => (.error e, a2, 1)
    | .ok response =>
      let doc_ids := response.sources.map (fun s => s.doc_id)
      let a3 :=
        { a2 with response_cache :=
            cacheResponse a2.response_cache now question response }
      match cacheContext a3.context_cache now doc_ids response.sources with
      | .error e => (.error e, a3, 1)
      | .ok cc => (.ok response, { a3 with context_cache := cc }, 1)

end RagCache

namespace Samples

/-- A concrete `ArxivSource` used to evaluate the embedded functions at
specific inputs. -/
def source (id : Int) (file terms : String) : Schemas.ArxivSource where
  doc_id := id
  arxiv_url_link := ""
  source_file := file
  year := 2020
  category := "cs"
  abstract := ""
  text := ""
  summary := ""
  key_points := ""
  technical_terms := terms
  relationships := ""
  timestamp := 0
  score := 0

/-- A concrete search hit carrying only a source file and a distance. -/
def hit (file : String) (d : Rat) : Retriever.Hit where
  source_file := some file
  distance := d

/-- Concrete retriever collaborators whose search returns two hits with the
same `source_file`. -/
def dupClients : Retriever.Clients where
  get_embedding := fun _ => .ok (some [1])
  connect := .ok true
  get_collection :=
    .ok (some { search := fun _ _ => .ok [[hit "f" 1, hit "f" 2]] })

/-- Concrete retriever collaborators whose embedding client returns no
vector. -/
def embFailClients : Retriever.Clients where
  get_embedding := fun _ => .ok none
  connect := .ok true
  get_collection := .ok none

end Samples

namespace RagCache

/-- Projection of a paper node's payload. -/
def KGNode.paperInfo2 : KGNode → Option (Int × String × Int)
  | KGNode.paper id title year => some (id, title, year)
  | KGNode.term _ => none

/-- Projection of a term node's id. -/
def KGNode.termId2 : KGNode → Option Char
  | KGNode.paper _ _ _ => none
  | KGNode.term c => some c

/-- The ids of the term nodes of a node list, in order. -/
def termIds (nodes : List KGNode) : List Char :=
  nodes.filterMap KGNode.termId2

/-- The paper payloads of a node list, in order. -/
def paperInfos (nodes : List KGNode) : List (Int × String × Int) :=
  nodes.filterMap KGNode.paperInfo2

/-- First-seen filter over a character stream relative to an already-seen
set (only membership in `seen` matters). -/
def newChars (seen : List Char) : List Char → List Char
  | [] => []
  | c :: cs => if c ∈ seen then newChars seen cs else c :: newChars (c :: seen) cs

/-- The concatenated character stream of the sources' `technical_terms`
strings, in source order — what the Python `for term in terms` loops
actually iterate. -/
def charStream (sources : List Schemas.ArxivSource) : List Char :=
  sources.flatMap (fun s => s.technical_terms.toList)

/-- One `contains` edge per character occurrence of each source's
`technical_terms` string, in traversal order. -/
def edgesSpec (sources : List Schemas.ArxivSource) : List KGEdge :=
  sources.flatMap
    (fun s => s.technical_terms.toList.map
      (fun ch => { source := s.doc_id, target := ch }))

end RagCache

/-- The generic failure answer of the engine's outer recovery boundary is a
non-empty string. -/
theorem genericFailureAnswerNonempty :
    ("An error occurred while processing your question." : String) ≠ "" := by
  decide

/-- The canned no-results answer of the empty-retrieval short circuit is a
non-empty string. -/
theorem cannedEmptyAnswerNonempty :
    ("No relevant academic papers found for your query." : String) ≠ "" := by
  decide

/-- C1: whenever any stage of `answer_question` (retrieve, format, generate)
raises, the engine catches the exception and returns a well-formed
`RAGResponse` whose `error` is the exception's message, whose `answer` is
the generic non-empty failure message, and whose metric fields (other than
the two `start_time` readings taken at the failure) are all zero; the
embedded `answer_question` is a total function, so no exception escapes. -/
theorem c1_error_boundary (E : Engine.RAGEngine) (clock : Nat → Rat) (t : Nat)
    (q m : String) (h : Engine.firstStageError E q = some m) :
    (Engine.answer_question E clock t q).1.error = some m ∧
    (Engine.answer_question E clock t q).1.answer =
      "An error occurred while processing your question." ∧
    (Engine.answer_question E clock t q).1.answer ≠ "" ∧
    (Engine.answer_question E clock t q).1.sources = [] ∧
    (Engine.answer_question E clock t q).1.search_metrics.embedding_time = 0 ∧
    (Engine.answer_question E clock t q).1.search_metrics.search_time = 0 ∧
    (Engine.answer_question E clock t q).1.search_metrics.total_time = 0 ∧
    (Engine.answer_question E clock t q).1.search_metrics.num_results = 0 ∧
    (Engine.answer_question E clock t q).1.search_metrics.avg_score = 0 ∧
    (Engine.answer_question E clock t q).1.model_metrics.context_time = 0 ∧
    (Engine.answer_question E clock t q).1.model_metrics.inference_time = 0 ∧
    (Engine.answer_question E clock t q).1.model_metrics.total_time = 0 ∧
    (Engine.answer_question E clock t q).1.model_metrics.prompt_tokens = none ∧
    (Engine.answer_question E clock t q).1.model_metrics.completion_tokens = none := by
  unfold Engine.firstStageError at h
  unfold Engine.answer_question Engine.retrieve_sources Engine.generate_response
  cases hretr : E.retrieve q with
  | error e =>
    simp only [hretr, Option.some.injEq] at h
    subst h
    simp only [hretr]
    exact ⟨rfl, rfl, genericFailureAnswerNonempty, rfl, rfl, rfl, rfl, rfl, rfl, rfl, rfl, rfl, rfl, rfl⟩
  | ok sources =>
    simp only [hretr] at h
    cases sources with
    | nil => simp at h
    | cons s ss =>
      simp only [List.isEmpty_cons, Bool.false_eq_true, if_false] at h
      cases hfc : E.format_context (s :: ss) with
      | error e =>
        simp only [hfc, Option.some.injEq] at h
        subst h
        simp only [hretr, List.isEmpty_cons, Bool.false_eq_true, if_false, hfc]
        exact ⟨rfl, rfl, genericFailureAnswerNonempty, rfl, rfl, rfl, rfl, rfl, rfl, rfl, rfl, rfl, rfl, rfl⟩
      | ok context =>
        simp only [hfc] at h
        cases hgp : E.generate_prompt q context with
        | error e =>
          simp only [hgp, Option.some.injEq] at h
          subst h
          simp only [hretr, List.isEmpty_cons, Bool.false_eq_true, if_false, hfc, hgp]
          exact ⟨rfl, rfl, genericFailureAnswerNonempty, rfl, rfl, rfl, rfl, rfl, rfl, rfl, rfl, rfl, rfl, rfl⟩
        | ok prompt =>
          simp only [hgp] at h
          cases him : E.interact_with_model prompt with
          | error e =>
            simp only [him, Option.some.injEq] at h
            subst h
            simp only [hretr, List.isEmpty_cons, Bool.false_eq_true, if_false, hfc,
              hgp, him]
            exact ⟨rfl, rfl, genericFailureAnswerNonempty, rfl, rfl, rfl, rfl, rfl, rfl, rfl, rfl, rfl, rfl, rfl⟩
          | ok oresp =>
            cases oresp with
            | none =>
              simp only [him, Option.some.injEq] at h
              subst h
              simp only [hretr, List.isEmpty_cons, Bool.false_eq_true, if_false, hfc,
                hgp, him]
              exact ⟨rfl, rfl, genericFailureAnswerNonempty, rfl, rfl, rfl, rfl, rfl, rfl, rfl, rfl, rfl, rfl, rfl⟩
            | some resp =>
              simp only [him] at h
              cases hch : resp.choices with
              | none =>
                simp only [hch, Option.some.injEq] at h
                subst h
                simp only [hretr, List.isEmpty_cons, Bool.false_eq_true, if_false, hfc,
                  hgp, him, hch]
                exact ⟨rfl, rfl, genericFailureAnswerNonempty, rfl, rfl, rfl, rfl, rfl, rfl, rfl, rfl, rfl, rfl, rfl⟩
              | some choices =>
                cases choices with
                | nil =>
                  simp only [hch, Option.some.injEq] at h
                  subst h
                  simp only [hretr, List.isEmpty_cons, Bool.false_eq_true, if_false, hfc,
                    hgp, him, hch]
                  exact ⟨rfl, rfl, genericFailureAnswerNonempty, rfl, rfl, rfl, rfl, rfl, rfl, rfl, rfl, rfl, rfl, rfl⟩
                | cons a rest =>
                  simp [hch] at h

/-- Closed witness for C1 at a concrete engine whose retrieval stage
raises. -/
theorem c1_error_boundary_witness :
    (Engine.answer_question
      { retrieve := fun _ => .error "boom"
        format_context := fun _ => .ok ""
        generate_prompt := fun _ _ => .ok []
        interact_with_model := fun _ => .ok none }
      (fun _ => 0) 0 "q").1.error = some "boom" := by
  exact (c1_error_boundary
    { retrieve := fun _ => .error "boom"
      format_context := fun _ => .ok ""
      generate_prompt := fun _ _ => .ok []
      interact_with_model := fun _ => .ok none }
    (fun _ => 0) 0 "q" "boom" (by decide)).1

/-- C5: a query whose retrieval yields zero sources short-circuits: the
response has `error = None`, the non-empty canned fallback answer, an empty
source list, model metrics whose `context_time`, `inference_time` and
`total_time` are all zero, and the language-model collaborator is never
invoked on that call. -/
theorem c5_empty_short_circuit (E : Engine.RAGEngine) (clock : Nat → Rat)
    (t : Nat) (q : String) (h : E.retrieve q = .ok []) :
    (Engine.answer_question E clock t q).1.error = none ∧
    (Engine.answer_question E clock t q).1.answer =
      "No relevant academic papers found for your query." ∧
    (Engine.answer_question E clock t q).1.answer ≠ "" ∧
    (Engine.answer_question E clock t q).1.sources = [] ∧
    (Engine.answer_question E clock t q).1.model_metrics.context_time = 0 ∧
    (Engine.answer_question E clock t q).1.model_metrics.inference_time = 0 ∧
    (Engine.answer_question E clock t q).1.model_metrics.total_time = 0 ∧
    (Engine.answer_question E clock t q).2.2 = 0 := by
  unfold Engine.answer_question Engine.retrieve_sources
  simp only [h]
  exact ⟨rfl, rfl, cannedEmptyAnswerNonempty, rfl, rfl, rfl, rfl, rfl⟩

/-- C10: on every successful `answer_question` call with at least one
retrieved source — here with `format_context` instantiated to the academic
formatter at an arbitrary character budget `N` — the returned response
carries exactly the retriever's full source list, in the retriever's
order, independently of how many sources the budget dropped from the
context handed to the model. -/
theorem c10_sources_passthrough
    (retr : String → Except String (List Schemas.ArxivSource))
    (gp : String → String → Except String (List Engine.ChatMessage))
    (im : List Engine.ChatMessage → Except String (Option Engine.ModelResponse))
    (render : Nat → Schemas.ArxivSource → String) (N : Nat)
    (clock : Nat → Rat) (t : Nat) (q : String)
    (s : Schemas.ArxivSource) (ss : List Schemas.ArxivSource)
    (prompt : List Engine.ChatMessage) (resp : Engine.ModelResponse)
    (ans : String) (rest : List String)
    (hretr : retr q = .ok (s :: ss))
    (hgp : gp q (Formatter.format_context render N (s :: ss)) = .ok prompt)
    (him : im prompt = .ok (some resp))
    (hch : resp.choices = some (ans :: rest)) :
    (Engine.answer_question
      { retrieve := retr
        format_context := fun srcs => .ok (Formatter.format_context render N srcs)
        generate_prompt := gp
        interact_with_model := im }
      clock t q).1.sources = s :: ss ∧
    (Engine.answer_question
      { retrieve := retr
        format_context := fun srcs => .ok (Formatter.format_context render N srcs)
        generate_prompt := gp
        interact_with_model := im }
      clock t q).1.answer = ans ∧
    (Engine.answer_question
      { retrieve := retr
        format_context := fun srcs => .ok (Formatter.format_context render N srcs)
        generate_prompt := gp
        interact_with_model := im }
      clock t q).1.error = none := by
  unfold Engine.answer_question Engine.retrieve_sources Engine.generate_response
  simp only [hretr, List.isEmpty_cons, Bool.false_eq_true, if_false, hgp, him, hch]
  exact ⟨trivial, trivial, trivial⟩

/-- Closed witness for C10: a concrete engine retrieving two sources while
the academic formatter's budget of 5 characters keeps only the first
rendered source; the response still lists both sources. -/
theorem c10_sources_passthrough_witness :
    (Engine.answer_question
      { retrieve := fun _ => .ok [Samples.source 1 "f1" "", Samples.source 2 "f2" ""]
        format_context := fun srcs =>
          .ok (Formatter.format_context (fun _ _ => "XXXXX") 5 srcs)
        generate_prompt := fun _ _ => .ok []
        interact_with_model := fun _ => .ok (some { choices := some ["ans"] }) }
      (fun _ => 0) 0 "q").1.sources =
        [Samples.source 1 "f1" "", Samples.source 2 "f2" ""] ∧
    (Formatter.formatContextParts (fun _ _ => "XXXXX") 5 1 0
      [Samples.source 1 "f1" "", Samples.source 2 "f2" ""]).length = 1 := by
  refine ⟨?_, by decide⟩
  exact (c10_sources_passthrough
    (fun _ => .ok [Samples.source 1 "f1" "", Samples.source 2 "f2" ""])
    (fun _ _ => .ok []) (fun _ => .ok (some { choices := some ["ans"] }))
    (fun _ _ => "XXXXX") 5 (fun _ => 0) 0 "q"
    (Samples.source 1 "f1" "") [Samples.source 2 "f2" ""]
    [] { choices := some ["ans"] } "ans" [] rfl rfl rfl rfl).1

/-- Partial sums of a list of naturals are monotone in the prefix length. -/
theorem sum_take_mono (l : List Nat) {j1 j2 : Nat} (h : j1 ≤ j2) :
    (l.take j1).sum ≤ (l.take j2).sum := by
  induction l generalizing j1 j2 with
  | nil => simp
  | cons x xs ih =>
    cases j1 with
    | zero => simp
    | succ j1 =>
      cases j2 with
      | zero => omega
      | succ j2 =>
        simp only [List.take_succ_cons, List.sum_cons]
        exact Nat.add_le_add_left (ih (Nat.le_of_succ_le_succ h)) x

/-- Enumerating a prefix is taking a prefix of the enumeration. -/
theorem enumFrom_take {α : Type} (xs : List α) (n k : Nat) :
    List.enumFrom n (xs.take k) = (List.enumFrom n xs).take k := by
  induction xs generalizing n k with
  | nil => simp
  | cons x xs ih =>
    cases k with
    | zero => simp
    | succ k => simp [List.enumFrom, ih]

/-- The parts kept by the formatter's truncation loop are exactly the whole
renders of the prefix of sources of the corresponding length: no source is
partially rendered. -/
theorem formatContextParts_prefix (render : Nat → Schemas.ArxivSource → String)
    (N : Nat) (xs : List Schemas.ArxivSource) (i total : Nat) :
    Formatter.formatContextParts render N i total xs =
      ((List.enumFrom i xs).take
        (Formatter.formatContextParts render N i total xs).length).map
        (fun p => render p.1 p.2) := by
  induction xs generalizing i total with
  | nil => simp [Formatter.formatContextParts]
  | cons s rest ih =>
    unfold Formatter.formatContextParts
    by_cases hov : N < total + (render i s).length
    · simp [hov]
    · simp only [hov, if_false, List.length_cons, List.enumFrom,
        List.take_succ_cons, List.map_cons]
      exact congrArg (render i s :: ·) (ih (i + 1) (total + (render i s).length))

/-- The truncation loop keeps at most as many parts as there are sources. -/
theorem formatContextParts_length_le
    (render : Nat → Schemas.ArxivSource → String) (N : Nat)
    (xs : List Schemas.ArxivSource) (i total : Nat) :
    (Formatter.formatContextParts render N i total xs).length ≤ xs.length := by
  induction xs generalizing i total with
  | nil => simp [Formatter.formatContextParts]
  | cons s rest ih =>
    unfold Formatter.formatContextParts
    by_cases hov : N < total + (render i s).length
    · simp [hov]
    · simpa [hov] using ih (i + 1) (total + (render i s).length)

/-- The rendered lengths of the kept prefix fit the remaining budget. -/
theorem formatContextParts_sum_le
    (render : Nat → Schemas.ArxivSource → String) (N : Nat)
    (xs : List Schemas.ArxivSource) (i total : Nat) (htot : total ≤ N) :
    total +
      ((((List.enumFrom i xs).map (fun p => (render p.1 p.2).length)).take
        (Formatter.formatContextParts render N i total xs).length).sum) ≤ N := by
  induction xs generalizing i total with
  | nil => simpa [Formatter.formatContextParts] using htot
  | cons s rest ih =>
    unfold Formatter.formatContextParts
    by_cases hov : N < total + (render i s).length
    · simpa [hov] using htot
    · have hfit : total + (render i s).length ≤ N := Nat.le_of_not_lt hov
      have := ih (i + 1) (total + (render i s).length) hfit
      simp only [hov, if_false, List.enumFrom, List.map_cons, List.length_cons,
        List.take_succ_cons, List.sum_cons]
      omega

/-- When the loop stops before exhausting the sources, the very next
rendered length overflows the budget. -/
theorem formatContextParts_overflow
    (render : Nat → Schemas.ArxivSource → String) (N : Nat)
    (xs : List Schemas.ArxivSource) (i total : Nat)
    (hlt : (Formatter.formatContextParts render N i total xs).length < xs.length) :
    N < total +
      ((((List.enumFrom i xs).map (fun p => (render p.1 p.2).length)).take
        ((Formatter.formatContextParts render N i total xs).length + 1)).sum) := by
  induction xs generalizing i total with
  | nil => simp [Formatter.formatContextParts] at hlt
  | cons s rest ih =>
    unfold Formatter.formatContextParts at hlt ⊢
    by_cases hov : N < total + (render i s).length
    · simp [hov]
    · simp only [hov, if_false, List.length_cons, Nat.succ_lt_succ_iff] at hlt
      have := ih (i + 1) (total + (render i s).length) hlt
      simp only [hov, if_false, List.enumFrom, List.map_cons, List.length_cons,
        List.take_succ_cons, List.sum_cons]
      omega

/-- C2 (amended): for every budget `N` and every non-empty source list, the
context body contains exactly the whole renders of the longest prefix of
`k` sources whose rendered lengths sum to at most `N`, and the appended
bibliography lists exactly those `k` sources with the same 1-based
numbering; an empty source list instead yields the fixed fallback string
with no bibliography (see the counterexample). -/
theorem c2_budget_truncation (render : Nat → Schemas.ArxivSource → String)
    (N : Nat) (sources : List Schemas.ArxivSource) (hne : sources ≠ []) :
    (Formatter.formatContextParts render N 1 0 sources).length ≤ sources.length ∧
    Formatter.formatContextParts render N 1 0 sources =
      ((List.enumFrom 1 sources).take
        (Formatter.formatContextParts render N 1 0 sources).length).map
        (fun p => render p.1 p.2) ∧
    ((((List.enumFrom 1 sources).map (fun p => (render p.1 p.2).length)).take
      (Formatter.formatContextParts render N 1 0 sources).length).sum) ≤ N ∧
    (∀ j, j ≤ sources.length →
      ((((List.enumFrom 1 sources).map (fun p => (render p.1 p.2).length)).take
        j).sum) ≤ N →
      j ≤ (Formatter.formatContextParts render N 1 0 sources).length) ∧
    Formatter.format_context render N sources =
      String.intercalate "\n\n" (Formatter.formatContextParts render N 1 0 sources) ++
        "\n\n" ++
        Formatter.append_bibliography
          (sources.take (Formatter.formatContextParts render N 1 0 sources).length) ∧
    Formatter.append_bibliography
        (sources.take (Formatter.formatContextParts render N 1 0 sources).length) =
      "Bibliography:\n" ++
        String.intercalate "\n"
          (((List.enumFrom 1 sources).take
            (Formatter.formatContextParts render N 1 0 sources).length).map
            (fun p => Formatter.bibliographyLine p.1 p.2)) := by
  have hempty : sources.isEmpty = false := by
    cases sources with
    | nil => exact absurd rfl hne
    | cons s ss => rfl
  refine ⟨formatContextParts_length_le render N sources 1 0,
    formatContextParts_prefix render N sources 1 0, ?_, ?_, ?_, ?_⟩
  · simpa using formatContextParts_sum_le render N sources 1 0 (Nat.zero_le N)
  · intro j hj hsum
    by_contra hgt
    have hk : (Formatter.formatContextParts render N 1 0 sources).length <
        sources.length := Nat.lt_of_lt_of_le (Nat.lt_of_not_le hgt) hj
    have hover := formatContextParts_overflow render N sources 1 0 hk
    have hmono :
        ((((List.enumFrom 1 sources).map (fun p => (render p.1 p.2).length)).take
          ((Formatter.formatContextParts render N 1 0 sources).length + 1)).sum) ≤
        ((((List.enumFrom 1 sources).map (fun p => (render p.1 p.2).length)).take
          j).sum) :=
      sum_take_mono _ (Nat.lt_of_not_le hgt)
    omega
  · unfold Formatter.format_context
    rw [hempty]
    rfl
  · unfold Formatter.append_bibliography
    rw [enumFrom_take]

/-- Counterexample for C2 as frozen: on the empty source list,
`format_context` returns the fixed fallback string, which is not the
claimed context-plus-bibliography shape (no bibliography is appended at
all). -/
theorem c2_counterexample :
    Formatter.format_context (fun _ _ => "") 0 [] =
      "No relevant academic papers found." ∧
    Formatter.format_context (fun _ _ => "") 0 [] ≠
      String.intercalate "\n\n" (Formatter.formatContextParts (fun _ _ => "") 0 1 0 []) ++
        "\n\n" ++
        Formatter.append_bibliography
          (List.take (Formatter.formatContextParts (fun _ _ => "") 0 1 0 []).length []) := by
  constructor
  · rfl
  · decide

/-- Closed witness for C2 at a concrete render function, budget and source
pair where the budget keeps only the first source. -/
theorem c2_budget_truncation_witness :
    (Formatter.formatContextParts (fun _ _ => "AB") 3 1 0
      [Samples.source 1 "f1" "", Samples.source 2 "f2" ""]).length ≤ 2 := by
  exact (c2_budget_truncation (fun _ _ => "AB") 3
    [Samples.source 1 "f1" "", Samples.source 2 "f2" ""] (by decide)).1

/-- Closed witness for C5 at a concrete engine whose retriever finds
nothing. -/
theorem c5_empty_short_circuit_witness :
    (Engine.answer_question
      { retrieve := fun _ => .ok []
        format_context := fun _ => .ok ""
        generate_prompt := fun _ _ => .ok []
        interact_with_model := fun _ => .ok none }
      (fun _ => 0) 0 "q").1.answer =
      "No relevant academic papers found for your query." := by
  exact (c5_empty_short_circuit
    { retrieve := fun _ => .ok []
      format_context := fun _ => .ok ""
      generate_prompt := fun _ _ => .ok []
      interact_with_model := fun _ => .ok none }
    (fun _ => 0) 0 "q" rfl).2.1

/-- Folding the first-occurrence filter from a longer accumulator extends
the result of the deduplication loop: the loop's seen set corresponds to
the files of the hits already kept. -/
theorem processHits_eq_foldl (hits : List Retriever.Hit) :
    ∀ (acc : List Retriever.Hit) (seen : List String),
      (∀ f, f ∈ seen ↔ f ∈ acc.map AbstractChunk.hitFile) →
      acc.map AbstractChunk.mkSource ++ AbstractChunk.processHits seen hits =
        (hits.foldl
          (fun acc h =>
            if AbstractChunk.hitFile h ∈ acc.map AbstractChunk.hitFile then acc
            else acc ++ [h]) acc).map AbstractChunk.mkSource := by
  induction hits with
  | nil => intro acc seen _; simp [AbstractChunk.processHits]
  | cons h hs ih =>
    intro acc seen hinv
    unfold AbstractChunk.processHits
    by_cases hmem : AbstractChunk.hitFile h ∈ seen
    · have hmem2 : AbstractChunk.hitFile h ∈ acc.map AbstractChunk.hitFile :=
        (hinv (AbstractChunk.hitFile h)).mp hmem
      simp only [hmem, if_true, List.foldl_cons, hmem2]
      exact ih acc seen hinv
    · have hmem2 : AbstractChunk.hitFile h ∉ acc.map AbstractChunk.hitFile :=
        fun hc => hmem ((hinv (AbstractChunk.hitFile h)).mpr hc)
    
      have hinv2 : ∀ f, f ∈ AbstractChunk.hitFile h :: seen ↔
          f ∈ (acc ++ [h]).map AbstractChunk.hitFile := by
        intro f
        simp only [List.mem_cons, List.map_append, List.map_cons, List.map_nil,
          List.mem_append, List.mem_singleton]
        constructor
        · rintro (hf | hf)
          · exact Or.inr (Or.inl hf)
          · exact Or.inl ((hinv f).mp hf)
        · rintro (hf | hf | hf)
          · exact Or.inr ((hinv f).mpr hf)
          · exact Or.inl hf
          · cases hf
      simp only [hmem, if_false, List.foldl_cons, hmem2]
      have := ih (acc ++ [h]) (AbstractChunk.hitFile h :: seen) hinv2
      simpa [List.map_append] using this

/-- The first-occurrence filter keeps the files of its accumulator free of
duplicates. -/
theorem firstWins_nodup_go (hits : List Retriever.Hit) :
    ∀ (acc : List Retriever.Hit), (acc.map AbstractChunk.hitFile).Nodup →
      ((hits.foldl
        (fun acc h =>
          if AbstractChunk.hitFile h ∈ acc.map AbstractChunk.hitFile then acc
          else acc ++ [h]) acc).map AbstractChunk.hitFile).Nodup := by
  induction hits with
  | nil => intro acc hacc; simpa using hacc
  | cons h hs ih =>
    intro acc hacc
    simp only [List.foldl_cons]
    by_cases hmem : AbstractChunk.hitFile h ∈ acc.map AbstractChunk.hitFile
    · simp only [hmem, if_true]
      exact ih acc hacc
    · simp only [hmem, if_false]
      refine ih (acc ++ [h]) ?_
      simp only [List.map_append, List.map_cons, List.map_nil]
      rw [List.nodup_append]
      exact ⟨hacc, List.nodup_singleton _, by simpa using hmem⟩

/-- C3 (amended): the deduplication described by the claim is performed by
`search_documents` of `rag_abstract_chunk.py` — its result keeps exactly
the first hit for each distinct `source_file`, in first-seen order, so its
file names are duplicate-free — while `MilvusRetriever.retrieve` of
`src/rag/retriever.py` performs no deduplication at all: on a successful
search it maps every hit of the first result list one-to-one into an
`ArxivSource` (see the counterexample). -/
theorem c3_dedup_first_seen (hits : List Retriever.Hit) :
    AbstractChunk.search_documents_dedup hits =
      (AbstractChunk.firstWins hits).map AbstractChunk.mkSource ∧
    ((AbstractChunk.search_documents_dedup hits).map
      (fun s => s.file_name)).Nodup ∧
    (∀ (c : Retriever.Clients) (q : String) (k : Nat) (v : List Rat)
      (coll : Retriever.Collection) (first : List Retriever.Hit)
      (rest : List (List Retriever.Hit)),
      c.get_embedding q = .ok (some v) → v ≠ [] →
      c.connect = .ok true → c.get_collection = .ok (some coll) →
      coll.search v k = .ok (first :: rest) → first ≠ [] →
      Retriever.retrieve c q k = .ok (first.map Retriever.mkArxivSource)) := by
  have h1 : AbstractChunk.search_documents_dedup hits =
      (AbstractChunk.firstWins hits).map AbstractChunk.mkSource := by
    unfold AbstractChunk.search_documents_dedup AbstractChunk.firstWins
    have := processHits_eq_foldl hits [] [] (by simp)
    simpa using this
  refine ⟨h1, ?_, ?_⟩
  · rw [h1, List.map_map]
    show ((AbstractChunk.firstWins hits).map AbstractChunk.hitFile).Nodup
    unfold AbstractChunk.firstWins
    exact firstWins_nodup_go hits [] (by simp)
  · intro c q k v coll first rest hv hvne hconn hcoll hsearch hfne
    unfold Retriever.retrieve
    cases v with
    | nil => exact absurd rfl hvne
    | cons a as =>
      cases first with
      | nil => exact absurd rfl hfne
      | cons h1 hrest =>
        simp [hv, hconn, hcoll, hsearch]

/-- Counterexample for C3 as frozen: with two hits sharing `source_file`
`f`, `MilvusRetriever.retrieve` returns two `Source`s for the same file,
so its result is not one-per-distinct-`source_file`. -/
theorem c3_counterexample :
    Retriever.retrieve Samples.dupClients "q" 5 =
      .ok [Retriever.mkArxivSource (Samples.hit "f" 1),
        Retriever.mkArxivSource (Samples.hit "f" 2)] ∧
    (Retriever.mkArxivSource (Samples.hit "f" 1)).source_file = "f" ∧
    (Retriever.mkArxivSource (Samples.hit "f" 2)).source_file = "f" ∧
    ¬ ([Retriever.mkArxivSource (Samples.hit "f" 1),
        Retriever.mkArxivSource (Samples.hit "f" 2)].map
        (fun s => s.source_file)).Nodup := by
  refine ⟨rfl, rfl, rfl, ?_⟩
  decide

/-- Closed witness for C3 at a concrete duplicate-bearing hit list. -/
theorem c3_dedup_first_seen_witness :
    AbstractChunk.search_documents_dedup [Samples.hit "f" 1, Samples.hit "f" 2] =
      (AbstractChunk.firstWins [Samples.hit "f" 1, Samples.hit "f" 2]).map
        AbstractChunk.mkSource ∧
    ((AbstractChunk.search_documents_dedup
      [Samples.hit "f" 1, Samples.hit "f" 2]).map (fun s => s.file_name)).Nodup := by
  exact ⟨(c3_dedup_first_seen [Samples.hit "f" 1, Samples.hit "f" 2]).1,
    (c3_dedup_first_seen [Samples.hit "f" 1, Samples.hit "f" 2]).2.1⟩


/-- C4: the Retriever raises on failures instead of hiding them — a falsy
embedding raises the embedding error; an unreachable search service or a
missing collection raises a search-side error with a different message;
and `retrieve` only returns the empty list when the search legitimately
produced zero hits, so a failure is never silently converted into an empty
result list. -/
theorem c4_failure_semantics (c : Retriever.Clients) (q : String) (k : Nat) :
    ((c.get_embedding q = .ok none ∨ c.get_embedding q = .ok (some [])) →
      Retriever.retrieve c q k = .error "Failed to generate query embedding") ∧
    (∀ v : List Rat, c.get_embedding q = .ok (some v) → v ≠ [] →
      c.connect = .ok false →
      Retriever.retrieve c q k = .error "Failed to connect to Milvus") ∧
    (∀ v : List Rat, c.get_embedding q = .ok (some v) → v ≠ [] →
      c.connect = .ok true → c.get_collection = .ok none →
      Retriever.retrieve c q k = .error "Failed to get collection") ∧
    (("Failed to generate query embedding" : String) ≠
      "Failed to connect to Milvus" ∧
     ("Failed to generate query embedding" : String) ≠
      "Failed to get collection") ∧
    (Retriever.retrieve c q k = .ok [] →
      ∃ (v : List Rat) (coll : Retriever.Collection)
        (results : List (List Retriever.Hit)),
        c.get_embedding q = .ok (some v) ∧ v ≠ [] ∧
        c.connect = .ok true ∧ c.get_collection = .ok (some coll) ∧
        coll.search v k = .ok results ∧
        (results = [] ∨ ∃ rest, results = [] :: rest)) := by
  refine ⟨?_, ?_, ?_, ⟨by decide, by decide⟩, ?_⟩
  · intro h
    unfold Retriever.retrieve
    rcases h with h | h <;> simp [h]
  · intro v hv hvne hconn
    unfold Retriever.retrieve
    cases v with
    | nil => exact absurd rfl hvne
    | cons a as => simp [hv, hconn]
  · intro v hv hvne hconn hcoll
    unfold Retriever.retrieve
    cases v with
    | nil => exact absurd rfl hvne
    | cons a as => simp [hv, hconn, hcoll]
  · intro h
    unfold Retriever.retrieve at h
    cases hemb : c.get_embedding q with
    | error e => simp [hemb] at h
    | ok ov =>
      cases ov with
      | none => simp [hemb] at h
      | some v =>
        cases v with
        | nil => simp [hemb] at h
        | cons a as =>
          simp only [hemb, Option.getD_some, List.isEmpty_cons,
            Bool.false_eq_true, if_false] at h
          cases hconn : c.connect with
          | error e => simp [hconn] at h
          | ok b =>
            cases b with
            | false => simp [hconn] at h
            | true =>
              simp only [hconn] at h
              cases hcoll : c.get_collection with
              | error e => simp [hcoll] at h
              | ok oc =>
                cases oc with
                | none => simp [hcoll] at h
                | some coll =>
                  simp only [hcoll] at h
                  cases hsearch : coll.search (a :: as) k with
                  | error e => simp [hsearch] at h
                  | ok results =>
                    simp only [hsearch] at h
                    refine ⟨a :: as, coll, results, rfl, by simp, rfl,
                      rfl, hsearch, ?_⟩
                    cases results with
                    | nil => exact Or.inl rfl
                    | cons first rest =>
                      cases hfe : first with
                      | nil => exact Or.inr ⟨rest, rfl⟩
                      | cons x xs =>
                        rw [hfe] at h
                        simp at h

/-- Closed witness for C4: a concrete client set whose embedding collaborator
returns no vector makes `retrieve` raise the embedding error. -/
theorem c4_failure_semantics_witness :
    Retriever.retrieve Samples.embFailClients "q" 5 =
      .error "Failed to generate query embedding" := by
  exact (c4_failure_semantics Samples.embFailClients "q" 5).1 (Or.inl rfl)

/-- Ordered-dict lookup misses exactly the keys that are absent. -/
theorem lookupKey_eq_none_iff {V : Type} (l : List (String × V)) (k : String) :
    RagCache.lookupKey l k = none ↔ k ∉ l.map Prod.fst := by
  induction l with
  | nil => simp [RagCache.lookupKey]
  | cons p rest ih =>
    by_cases hk : p.1 = k
    · simp [RagCache.lookupKey, hk]
    · simp only [RagCache.lookupKey, hk, if_false, List.map_cons, List.mem_cons]
      rw [ih]
      constructor
      · intro hnot hc
        rcases hc with hc | hc
        · exact hk hc.symm
        · exact hnot hc
      · intro hnot
        exact fun hc => hnot (Or.inr hc)

/-- Removing a key from an ordered dict with duplicate-free keys leaves no
entry under that key. -/
theorem lookupKey_removeKey {V : Type} (l : List (String × V)) (k : String)
    (hnd : (l.map Prod.fst).Nodup) :
    RagCache.lookupKey (RagCache.removeKey l k) k = none := by
  induction l with
  | nil => simp [RagCache.removeKey, RagCache.lookupKey]
  | cons p rest ih =>
    simp only [List.map_cons, List.nodup_cons] at hnd
    by_cases hk : p.1 = k
    · simp only [RagCache.removeKey, hk, if_true]
      rw [lookupKey_eq_none_iff]
      rw [hk] at hnd
      exact hnd.1
    · simp only [RagCache.removeKey, hk, if_false, RagCache.lookupKey]
      exact ih hnd.2

/-- A lookup that misses a front segment continues in the back segment. -/
theorem lookupKey_append {V : Type} (l m : List (String × V)) (k : String)
    (h : RagCache.lookupKey l k = none) :
    RagCache.lookupKey (l ++ m) k = RagCache.lookupKey m k := by
  induction l with
  | nil => simp
  | cons p rest ih =>
    by_cases hk : p.1 = k
    · simp [RagCache.lookupKey, hk] at h
    · simp only [RagCache.lookupKey, hk, if_false] at h
      simpa [RagCache.lookupKey, hk] using ih h

/-- A miss on a list is also a miss on its tail. -/
theorem lookupKey_tail {V : Type} (l : List (String × V)) (k : String)
    (h : RagCache.lookupKey l k = none) :
    RagCache.lookupKey l.tail k = none := by
  cases l with
  | nil => simp [RagCache.lookupKey]
  | cons p rest =>
    by_cases hk : p.1 = k
    · simp [RagCache.lookupKey, hk] at h
    · simpa [RagCache.lookupKey, hk] using h

/-- Removing a present key shortens the entry list by exactly one. -/
theorem removeKey_length {V : Type} (l : List (String × V)) (k : String) (v : V)
    (h : RagCache.lookupKey l k = some v) :
    (RagCache.removeKey l k).length + 1 = l.length := by
  induction l with
  | nil => simp [RagCache.lookupKey] at h
  | cons p rest ih =>
    by_cases hk : p.1 = k
    · simp [RagCache.removeKey, hk]
    · simp only [RagCache.lookupKey, hk, if_false] at h
      simp only [RagCache.removeKey, hk, if_false, List.length_cons]
      rw [← ih h]

/-- After a `put`, the key is present with the new value, provided the
capacity is positive and the keys were duplicate-free. -/
theorem lookupKey_put_self {V : Type} (c : RagCache.LRUCache V)
    (k : String) (v : V) (hcap : 0 < c.capacity)
    (hnd : (c.cache.map Prod.fst).Nodup) :
    RagCache.lookupKey (c.put k v).cache k = some v := by
  unfold RagCache.LRUCache.put
  cases hl : RagCache.lookupKey c.cache k with
  | none =>
    simp only [hl]
    by_cases hsz : c.capacity < (c.cache ++ [(k, v)]).length
    · rw [if_pos hsz]
      cases hc : c.cache with
      | nil =>
        rw [hc] at hsz
        simp at hsz
        omega
      | cons p rest =>
        have hrest : RagCache.lookupKey rest k = none := by
          have htl := lookupKey_tail c.cache k hl
          rw [hc] at htl
          exact htl
        show RagCache.lookupKey (rest ++ [(k, v)]) k = some v
        rw [lookupKey_append rest [(k, v)] k hrest]
        simp [RagCache.lookupKey]
    · rw [if_neg hsz]
      rw [lookupKey_append c.cache [(k, v)] k hl]
      simp [RagCache.lookupKey]
  | some w =>
    simp only [hl]
    have hrm : RagCache.lookupKey (RagCache.removeKey c.cache k) k = none :=
      lookupKey_removeKey c.cache k hnd
    by_cases hsz :
        c.capacity < (RagCache.removeKey c.cache k ++ [(k, v)]).length
    · rw [if_pos hsz]
      cases hrc : RagCache.removeKey c.cache k with
      | nil =>
        rw [hrc] at hsz
        simp at hsz
        omega
      | cons p rest =>
        have hrest : RagCache.lookupKey rest k = none := by
          have htl := lookupKey_tail (RagCache.removeKey c.cache k) k hrm
          rw [hrc] at htl
          exact htl
        show RagCache.lookupKey (rest ++ [(k, v)]) k = some v
        rw [lookupKey_append rest [(k, v)] k hrest]
        simp [RagCache.lookupKey]
    · rw [if_neg hsz]
      rw [lookupKey_append _ [(k, v)] k hrm]
      simp [RagCache.lookupKey]

/-- A `put` never changes the capacity. -/
theorem put_capacity {V : Type} (c : RagCache.LRUCache V) (k : String) (v : V) :
    (c.put k v).capacity = c.capacity := by
  unfold RagCache.LRUCache.put
  rfl

/-- Inserting pairwise-distinct keys into an empty LRU cache leaves exactly
the last `capacity` insertions, in insertion order: every overflow evicts
the oldest entry. -/
theorem putAll_empty_distinct {V : Type} (cap : Nat)
    (ks : List (String × V)) (hnd : (ks.map Prod.fst).Nodup) :
    (RagCache.putAll (RagCache.LRUCache.empty V cap) ks).cache =
      ks.drop (ks.length - cap) ∧
    (RagCache.putAll (RagCache.LRUCache.empty V cap) ks).capacity = cap := by
  induction ks using List.reverseRecOn with
  | nil =>
    constructor <;> simp [RagCache.putAll, RagCache.LRUCache.empty]
  | append_singleton as a ih =>
    obtain ⟨ka, va⟩ := a
    have hnd2 : (as.map Prod.fst).Nodup ∧ ka ∉ as.map Prod.fst := by
      rw [List.map_append, List.nodup_append] at hnd
      refine ⟨hnd.1, ?_⟩
      intro hmem
      exact hnd.2.2 hmem (by simp)
    obtain ⟨hih, hihcap⟩ := ih hnd2.1
    have hstep : RagCache.putAll (RagCache.LRUCache.empty V cap) (as ++ [(ka, va)]) =
        (RagCache.putAll (RagCache.LRUCache.empty V cap) as).put ka va := by
      unfold RagCache.putAll
      rw [List.foldl_append]
      rfl
    have hnotin : ka ∉ (as.drop (as.length - cap)).map Prod.fst := by
      intro hmem
      apply hnd2.2
      rw [List.map_drop] at hmem
      exact List.mem_of_mem_drop hmem
    have hlook :
        RagCache.lookupKey
          (RagCache.putAll (RagCache.LRUCache.empty V cap) as).cache ka =
          none := by
      rw [hih, lookupKey_eq_none_iff]
      exact hnotin
    rw [hstep]
    unfold RagCache.LRUCache.put
    rw [hlook, hih, hihcap]
    dsimp only
    refine ⟨?_, rfl⟩
    have hdroplen : (as.drop (as.length - cap)).length =
        as.length - (as.length - cap) := List.length_drop _ _
    by_cases hcmp : cap < (as.drop (as.length - cap) ++ [(ka, va)]).length
    · rw [if_pos hcmp]
      rw [List.length_append, hdroplen] at hcmp
      simp only [List.length_cons, List.length_nil] at hcmp
      cases hdc : as.drop (as.length - cap) with
      | nil =>
        have hzero : as.length - (as.length - cap) = 0 := by
          rw [← hdroplen, hdc]
          rfl
        have hcap0 : cap = 0 := by omega
        subst hcap0
        simp
      | cons p rest =>
        have htail1 : ((p :: rest) ++ [(ka, va)]).tail = rest ++ [(ka, va)] := rfl
        rw [htail1]
        have hrest : rest = as.drop (as.length - cap + 1) := by
          have htd := List.tail_drop as (as.length - cap)
          rw [hdc] at htd
          simpa using htd
        rw [hrest]
        have hlen : as.length - (as.length - cap) = (p :: rest).length := by
          rw [← hdroplen, hdc]
        simp only [List.length_cons] at hlen
        have harith : as.length - cap + 1 = (as ++ [(ka, va)]).length - cap := by
          rw [List.length_append]
          simp only [List.length_cons, List.length_nil]
          omega
        rw [harith]
        have hle : (as ++ [(ka, va)]).length - cap ≤ as.length := by
          rw [List.length_append]
          simp only [List.length_cons, List.length_nil]
          omega
        rw [List.drop_append_of_le_length hle]
    · rw [if_neg hcmp]
      rw [List.length_append, hdroplen] at hcmp
      simp only [List.length_cons, List.length_nil] at hcmp
      have hlt1 : as.length - cap = 0 := by omega
      have hlt2 : (as ++ [(ka, va)]).length - cap = 0 := by
        rw [List.length_append]
        simp only [List.length_cons, List.length_nil]
        omega
      rw [hlt1, hlt2]
      simp

/-- C7: the LRU cache keeps its size at most the capacity across `get`
(which never changes the size) and `put` (which evicts on overflow); after
inserting `capacity + 1` distinct keys into an empty cache the first
(least-recently-used) key has been evicted, so a subsequent `get` for it
misses; a successful `get` moves the accessed key to the most-recently-used
end of the order; and an overflowing `put` of a fresh key evicts exactly
the least-recently-used front entry. -/
theorem c7_lru_invariants (V : Type) :
    (∀ (c : RagCache.LRUCache V) (k : String),
      ((c.get k).2).cache.length = c.cache.length ∧
      ((c.get k).2).capacity = c.capacity) ∧
    (∀ (c : RagCache.LRUCache V) (k : String) (v : V),
      c.cache.length ≤ c.capacity → ((c.put k v)).cache.length ≤ c.capacity) ∧
    (∀ (c : RagCache.LRUCache V) (k : String) (v : V),
      (c.get k).1 = some v → ((c.get k).2).cache.getLast? = some (k, v)) ∧
    (∀ (c : RagCache.LRUCache V) (k : String) (v : V),
      k ∉ c.cache.map Prod.fst → c.cache.length = c.capacity →
      0 < c.capacity → (c.put k v).cache = c.cache.tail ++ [(k, v)]) ∧
    (∀ (cap : Nat) (ks : List (String × V)) (k0 : String) (v0 : V),
      (ks.map Prod.fst).Nodup → ks.length = cap + 1 →
      ks.head? = some (k0, v0) →
      ((RagCache.putAll (RagCache.LRUCache.empty V cap) ks).get k0).1 = none) := by
  refine ⟨?_, ?_, ?_, ?_, ?_⟩
  · intro c k
    unfold RagCache.LRUCache.get
    cases hl : RagCache.lookupKey c.cache k with
    | none => exact ⟨rfl, rfl⟩
    | some v =>
      refine ⟨?_, rfl⟩
      dsimp only
      rw [List.length_append]
      simp only [List.length_cons, List.length_nil]
      have := removeKey_length c.cache k v hl
      omega
  · intro c k v hle
    unfold RagCache.LRUCache.put
    cases hl : RagCache.lookupKey c.cache k with
    | none =>
      dsimp only
      by_cases hsz : c.capacity < (c.cache ++ [(k, v)]).length
      · rw [if_pos hsz]
        rw [List.length_tail, List.length_append]
        simp only [List.length_cons, List.length_nil]
        omega
      · rw [if_neg hsz]
        rw [List.length_append] at hsz ⊢
        simp only [List.length_cons, List.length_nil] at hsz ⊢
        omega
    | some w =>
      dsimp only
      have hrm := removeKey_length c.cache k w hl
      by_cases hsz :
          c.capacity < (RagCache.removeKey c.cache k ++ [(k, v)]).length
      · rw [if_pos hsz]
        rw [List.length_tail, List.length_append]
        simp only [List.length_cons, List.length_nil]
        omega
      · rw [if_neg hsz]
        rw [List.length_append]
        simp only [List.length_cons, List.length_nil]
        omega
  · intro c k v hget
    unfold RagCache.LRUCache.get at hget ⊢
    cases hl : RagCache.lookupKey c.cache k with
    | none => rw [hl] at hget; cases hget
    | some w =>
      rw [hl] at hget
      simp only [Option.some.injEq] at hget
      subst hget
      simp
  · intro c k v hnotin hfull hcap
    unfold RagCache.LRUCache.put
    have hl : RagCache.lookupKey c.cache k = none := by
      rw [lookupKey_eq_none_iff]
      exact hnotin
    rw [hl]
    dsimp only
    have hsz : c.capacity < (c.cache ++ [(k, v)]).length := by
      rw [List.length_append]
      simp only [List.length_cons, List.length_nil]
      omega
    rw [if_pos hsz]
    cases hc : c.cache with
    | nil =>
      rw [hc] at hfull
      simp at hfull
      omega
    | cons p rest => rfl
  · intro cap ks k0 v0 hnd hlen hhead
    obtain ⟨hcache, hcap⟩ := putAll_empty_distinct cap ks hnd
    unfold RagCache.LRUCache.get
    rw [hcache]
    cases ks with
    | nil => cases hhead
    | cons p tl =>
      simp only [List.head?_cons, Option.some.injEq] at hhead
      subst hhead
      simp only [List.length_cons] at hlen
      have hdrop1 : ((k0, v0) :: tl).length - cap = 1 := by
        simp only [List.length_cons]
        omega
      rw [hdrop1]
      simp only [List.drop_one, List.tail_cons]
      have hk0notin : k0 ∉ tl.map Prod.fst := by
        rw [List.map_cons, List.nodup_cons] at hnd
        exact hnd.1
      have : RagCache.lookupKey tl k0 = none := by
        rw [lookupKey_eq_none_iff]
        exact hk0notin
      rw [this]

/-- Closed witness for C7: a two-entry insertion into a capacity-1 cache
evicts the first key. -/
theorem c7_lru_invariants_witness :
    ((RagCache.putAll (RagCache.LRUCache.empty Nat 1)
      [("a", 1), ("b", 2)]).get "a").1 = none := by
  exact (c7_lru_invariants Nat).2.2.2.2 1 [("a", 1), ("b", 2)] "a" 1
    (by decide) (by decide) (by decide)

/-- Evaluation of the cached assistant's `answer_question` on a response
cache hit: the stored response is returned unchanged, the hit counter and
query counter are bumped, the entry moves to the most-recently-used end,
and the engine is not invoked. -/
theorem cached_aq_hit (a : RagCache.CachedResearchAssistant)
    (q now : String) (entry : RagCache.CacheEntry)
    (hl : RagCache.lookupKey a.response_cache.cache
      (RagCache.computeCacheKey q) = some entry) :
    a.answer_question now q =
      (.ok entry.response,
        { engine := a.engine
          response_cache :=
            { cache :=
                RagCache.removeKey a.response_cache.cache
                  (RagCache.computeCacheKey q) ++
                  [(RagCache.computeCacheKey q, entry)]
              capacity := a.response_cache.capacity }
          context_cache := a.context_cache
          cache_hits := a.cache_hits + 1
          cache_misses := a.cache_misses
          total_queries := a.total_queries + 1 }, 0) := by
  unfold RagCache.CachedResearchAssistant.answer_question RagCache.LRUCache.get
  dsimp only
  rw [hl]

/-- Evaluation of the cached assistant's `answer_question` on a response
cache miss whose engine call succeeds but whose context-caching step
raises: the response has already been stored in the response cache when
the exception propagates to the caller. -/
theorem cached_aq_miss_ctxerr (a : RagCache.CachedResearchAssistant)
    (q now : String) (resp : Schemas.RAGResponse) (e : String)
    (hl : RagCache.lookupKey a.response_cache.cache
      (RagCache.computeCacheKey q) = none)
    (heng : a.engine q = .ok resp)
    (hcc : RagCache.cacheContext a.context_cache now
      (resp.sources.map (fun s => s.doc_id)) resp.sources = .error e) :
    a.answer_question now q =
      (.error e,
        { engine := a.engine
          response_cache := RagCache.cacheResponse a.response_cache now q resp
          context_cache := a.context_cache
          cache_hits := a.cache_hits
          cache_misses := a.cache_misses + 1
          total_queries := a.total_queries + 1 }, 1) := by
  unfold RagCache.CachedResearchAssistant.answer_question RagCache.LRUCache.get
  dsimp only
  rw [hl]
  dsimp only
  rw [heng]
  dsimp only
  rw [hcc]

/-- Evaluation of the cached assistant's `answer_question` on a response
cache miss where both the engine call and the caching steps succeed. -/
theorem cached_aq_miss_ok (a : RagCache.CachedResearchAssistant)
    (q now : String) (resp : Schemas.RAGResponse)
    (cc : RagCache.LRUCache RagCache.CachedContext)
    (hl : RagCache.lookupKey a.response_cache.cache
      (RagCache.computeCacheKey q) = none)
    (heng : a.engine q = .ok resp)
    (hcc : RagCache.cacheContext a.context_cache now
      (resp.sources.map (fun s => s.doc_id)) resp.sources = .ok cc) :
    a.answer_question now q =
      (.ok resp,
        { engine := a.engine
          response_cache := RagCache.cacheResponse a.response_cache now q resp
          context_cache := cc
          cache_hits := a.cache_hits
          cache_misses := a.cache_misses + 1
          total_queries := a.total_queries + 1 }, 1) := by
  unfold RagCache.CachedResearchAssistant.answer_question RagCache.LRUCache.get
  dsimp only
  rw [hl]
  dsimp only
  rw [heng]
  dsimp only
  rw [hcc]

/-- C6: calling the cached assistant twice with the same exact question
string (over an engine call that succeeds) makes the second call a cache
hit: it returns the stored `RAGResponse` unchanged — equal to the first
call's result when the first call returned, and equal to the engine's
response when the first call raised in the context-caching step — while
incrementing the hit counter by exactly one and never reaching the wrapped
engine (zero engine invocations on the second call).  The response cache
is assumed well-formed: positive capacity and duplicate-free keys, as
`OrderedDict` guarantees. -/
theorem c6_cache_idempotence (a : RagCache.CachedResearchAssistant)
    (q now1 now2 : String) (resp : Schemas.RAGResponse)
    (hcap : 0 < a.response_cache.capacity)
    (hnd : (a.response_cache.cache.map Prod.fst).Nodup)
    (heng : a.engine q = .ok resp) :
    (∃ x : Schemas.RAGResponse,
      ((a.answer_question now1 q).2.1.answer_question now2 q).1 = .ok x ∧
      (∀ y, (a.answer_question now1 q).1 = .ok y → x = y) ∧
      (∀ m, (a.answer_question now1 q).1 = .error m → x = resp)) ∧
    ((a.answer_question now1 q).2.1.answer_question now2 q).2.1.cache_hits =
      (a.answer_question now1 q).2.1.cache_hits + 1 ∧
    ((a.answer_question now1 q).2.1.answer_question now2 q).2.2 = 0 := by
  cases hl : RagCache.lookupKey a.response_cache.cache
      (RagCache.computeCacheKey q) with
  | some entry =>
    have h1 := cached_aq_hit a q now1 entry hl
    rw [h1]
    dsimp only
    have hl2 : RagCache.lookupKey
        (RagCache.removeKey a.response_cache.cache (RagCache.computeCacheKey q) ++
          [(RagCache.computeCacheKey q, entry)]) (RagCache.computeCacheKey q) =
        some entry := by
      rw [lookupKey_append _ _ _ (lookupKey_removeKey _ _ hnd)]
      simp [RagCache.lookupKey]
    have h2 := cached_aq_hit
      { engine := a.engine
        response_cache :=
          { cache :=
              RagCache.removeKey a.response_cache.cache
                (RagCache.computeCacheKey q) ++
                [(RagCache.computeCacheKey q, entry)]
            capacity := a.response_cache.capacity }
        context_cache := a.context_cache
        cache_hits := a.cache_hits + 1
        cache_misses := a.cache_misses
        total_queries := a.total_queries + 1 } q now2 entry hl2
    rw [h2]
    refine ⟨⟨entry.response, rfl, ?_, ?_⟩, rfl, rfl⟩
    · intro y hy
      exact Except.ok.inj hy
    · intro m hm
      cases hm
  | none =>
    have hput : RagCache.lookupKey
        (RagCache.cacheResponse a.response_cache now1 q resp).cache
        (RagCache.computeCacheKey q) =
        some { response := resp, timestamp := now1
               metadata_sources := resp.sources.map (fun s => s.doc_id)
               metadata_cached_at := now1 } := by
      unfold RagCache.cacheResponse
      exact lookupKey_put_self a.response_cache (RagCache.computeCacheKey q)
        _ hcap hnd
    cases hcc : RagCache.cacheContext a.context_cache now1
        (resp.sources.map (fun s => s.doc_id)) resp.sources with
    | error e =>
      have h1 := cached_aq_miss_ctxerr a q now1 resp e hl heng hcc
      rw [h1]
      dsimp only
      have h2 := cached_aq_hit
        { engine := a.engine
          response_cache := RagCache.cacheResponse a.response_cache now1 q resp
          context_cache := a.context_cache
          cache_hits := a.cache_hits
          cache_misses := a.cache_misses + 1
          total_queries := a.total_queries + 1 } q now2 _ hput
      rw [h2]
      refine ⟨⟨resp, rfl, ?_, ?_⟩, rfl, rfl⟩
      · intro y hy
        cases hy
      · intro m hm
        rfl
    | ok cc =>
      have h1 := cached_aq_miss_ok a q now1 resp cc hl heng hcc
      rw [h1]
      dsimp only
      have h2 := cached_aq_hit
        { engine := a.engine
          response_cache := RagCache.cacheResponse a.response_cache now1 q resp
          context_cache := cc
          cache_hits := a.cache_hits
          cache_misses := a.cache_misses + 1
          total_queries := a.total_queries + 1 } q now2 _ hput
      rw [h2]
      refine ⟨⟨resp, rfl, ?_, ?_⟩, rfl, rfl⟩
      · intro y hy
        exact Except.ok.inj hy
      · intro m hm
        cases hm

/-- Closed witness for C6 at a concrete fresh assistant over an engine
returning a fixed response. -/
theorem c6_cache_idempotence_witness :
    ((RagCache.CachedResearchAssistant.answer_question
      { engine := fun _ => .ok
          { question := "q", answer := "ans", sources := []
            search_metrics :=
              { start_time := 0, embedding_time := 0, search_time := 0
                total_time := 0, num_results := 0, avg_score := 0 }
            model_metrics :=
              { start_time := 0, context_time := 0, inference_time := 0
                total_time := 0 } }
        response_cache := RagCache.LRUCache.empty RagCache.CacheEntry 1
        context_cache := RagCache.LRUCache.empty RagCache.CachedContext 1
        cache_hits := 0, cache_misses := 0, total_queries := 0 }
      "t1" "q").2.1.answer_question "t2" "q").2.2 = 0 := by
  exact (c6_cache_idempotence
    { engine := fun _ => .ok
        { question := "q", answer := "ans", sources := []
          search_metrics :=
            { start_time := 0, embedding_time := 0, search_time := 0
              total_time := 0, num_results := 0, avg_score := 0 }
          model_metrics :=
            { start_time := 0, context_time := 0, inference_time := 0
              total_time := 0 } }
      response_cache := RagCache.LRUCache.empty RagCache.CacheEntry 1
      context_cache := RagCache.LRUCache.empty RagCache.CachedContext 1
      cache_hits := 0, cache_misses := 0, total_queries := 0 }
    "q" "t1" "t2" _ (by decide) (by decide) rfl).2.2

/-- The first-seen filter only depends on the membership of the seen set. -/
theorem newChars_congr (seen1 seen2 : List Char)
    (h : ∀ c, c ∈ seen1 ↔ c ∈ seen2) (cs : List Char) :
    RagCache.newChars seen1 cs = RagCache.newChars seen2 cs := by
  induction cs generalizing seen1 seen2 with
  | nil => rfl
  | cons c cs ih =>
    unfold RagCache.newChars
    by_cases hc : c ∈ seen1
    · rw [if_pos hc, if_pos ((h c).mp hc)]
      exact ih seen1 seen2 h
    · rw [if_neg hc, if_neg (fun hx => hc ((h c).mpr hx))]
      refine congrArg (c :: ·) (ih (c :: seen1) (c :: seen2) ?_)
      intro x
      simp only [List.mem_cons]
      rw [h x]

/-- The first-seen filter distributes over concatenation, the second part
filtered against the enlarged seen set. -/
theorem newChars_append (seen : List Char) (cs1 cs2 : List Char) :
    RagCache.newChars seen (cs1 ++ cs2) =
      RagCache.newChars seen cs1 ++
        RagCache.newChars (RagCache.newChars seen cs1 ++ seen) cs2 := by
  induction cs1 generalizing seen with
  | nil => simp [RagCache.newChars]
  | cons c cs ih =>
    by_cases hc : c ∈ seen
    · have h1 : RagCache.newChars seen ((c :: cs) ++ cs2) =
          RagCache.newChars seen (cs ++ cs2) := by
        simp only [List.cons_append, RagCache.newChars, List.append_eq]
        rw [if_pos hc]
      have h2 : RagCache.newChars seen (c :: cs) =
          RagCache.newChars seen cs := by
        simp only [RagCache.newChars]
        rw [if_pos hc]
      rw [h1, h2, ih seen]
    · have h1 : RagCache.newChars seen ((c :: cs) ++ cs2) =
          c :: RagCache.newChars (c :: seen) (cs ++ cs2) := by
        simp only [List.cons_append, RagCache.newChars, List.append_eq]
        rw [if_neg hc]
      have h2 : RagCache.newChars seen (c :: cs) =
          c :: RagCache.newChars (c :: seen) cs := by
        simp only [RagCache.newChars]
        rw [if_neg hc]
      rw [h1, h2, ih (c :: seen)]
      simp only [List.cons_append, List.cons.injEq, true_and]
      refine congrArg (RagCache.newChars (c :: seen) cs ++ ·) ?_
      refine newChars_congr _ _ ?_ cs2
      intro x
      simp only [List.mem_append, List.mem_cons]
      tauto

/-- The membership test of `_build_knowledge_graph` succeeds exactly for
characters that already have a term node (paper ids, being integers, never
compare equal to a character under Python `==`). -/
theorem any_nodeIdIsChar (nodes : List RagCache.KGNode) (ch : Char) :
    nodes.any (RagCache.nodeIdIsChar ch) = true ↔
      ch ∈ RagCache.termIds nodes := by
  induction nodes with
  | nil => simp [RagCache.termIds]
  | cons n rest ih =>
    cases n with
    | paper id title year =>
      simp only [List.any_cons, RagCache.nodeIdIsChar, Bool.false_or]
      rw [ih]
      simp [RagCache.termIds, RagCache.KGNode.termId2]
    | term c =>
      by_cases hc : c = ch
      · subst hc
        simp [RagCache.nodeIdIsChar, RagCache.termIds, RagCache.KGNode.termId2]
      · rw [List.any_cons, Bool.or_eq_true, ih]
        simp only [RagCache.nodeIdIsChar, RagCache.termIds,
          List.filterMap_cons, RagCache.KGNode.termId2, decide_eq_true_eq,
          List.mem_cons]
        constructor
        · rintro (hx | hx)
          · exact absurd hx hc
          · exact Or.inr hx
        · rintro (hx | hx)
          · exact absurd hx.symm hc
          · exact Or.inr hx

/-- The ids of the term nodes of an extended node list. -/
theorem termIds_append (l1 l2 : List RagCache.KGNode) :
    RagCache.termIds (l1 ++ l2) = RagCache.termIds l1 ++ RagCache.termIds l2 := by
  simp [RagCache.termIds, List.filterMap_append]

/-- The inner character loop of `_build_knowledge_graph`: it appends one
term node per not-yet-seen character and one `contains` edge per character
occurrence. -/
theorem addTerms_spec (docId : Int) (chars : List Char) :
    ∀ g : RagCache.KnowledgeGraph,
    (RagCache.addTerms g docId chars).edges =
      g.edges ++ chars.map (fun ch => { source := docId, target := ch }) ∧
    (RagCache.addTerms g docId chars).nodes =
      g.nodes ++
        (RagCache.newChars (RagCache.termIds g.nodes) chars).map
          RagCache.KGNode.term := by
  induction chars with
  | nil => intro g; simp [RagCache.addTerms, RagCache.newChars]
  | cons ch cs ih =>
    intro g
    cases hb : g.nodes.any (RagCache.nodeIdIsChar ch) with
    | true =>
      have hmem : ch ∈ RagCache.termIds g.nodes :=
        (any_nodeIdIsChar g.nodes ch).mp hb
      have hstep : RagCache.addTerms g docId (ch :: cs) =
          RagCache.addTerms
            { nodes := g.nodes
              edges := g.edges ++ [{ source := docId, target := ch }] }
            docId cs := by
        unfold RagCache.addTerms
        simp only [List.foldl_cons, hb, if_true]
      rw [hstep]
      obtain ⟨he, hn⟩ := ih
        { nodes := g.nodes
          edges := g.edges ++ [{ source := docId, target := ch }] }
      rw [he, hn]
      dsimp only
      constructor
      · simp
      · have hcons : RagCache.newChars (RagCache.termIds g.nodes) (ch :: cs) =
            RagCache.newChars (RagCache.termIds g.nodes) cs := by
          simp only [RagCache.newChars]
          rw [if_pos hmem]
        rw [hcons]
    | false =>
      have hmem : ch ∉ RagCache.termIds g.nodes := by
        intro hx
        rw [(any_nodeIdIsChar g.nodes ch).mpr hx] at hb
        cases hb
      have hstep : RagCache.addTerms g docId (ch :: cs) =
          RagCache.addTerms
            { nodes := g.nodes ++ [RagCache.KGNode.term ch]
              edges := g.edges ++ [{ source := docId, target := ch }] }
            docId cs := by
        unfold RagCache.addTerms
        simp only [List.foldl_cons, hb, Bool.false_eq_true, if_false]
      rw [hstep]
      obtain ⟨he, hn⟩ := ih
        { nodes := g.nodes ++ [RagCache.KGNode.term ch]
          edges := g.edges ++ [{ source := docId, target := ch }] }
      rw [he, hn]
      dsimp only
      constructor
      · simp
      · have hcons : RagCache.newChars (RagCache.termIds g.nodes) (ch :: cs) =
            ch :: RagCache.newChars (ch :: RagCache.termIds g.nodes) cs := by
          simp only [RagCache.newChars]
          rw [if_neg hmem]
        rw [hcons]
        have hseen : RagCache.newChars
            (RagCache.termIds (g.nodes ++ [RagCache.KGNode.term ch])) cs =
            RagCache.newChars (ch :: RagCache.termIds g.nodes) cs := by
          refine newChars_congr _ _ ?_ cs
          intro x
          rw [termIds_append]
          simp [RagCache.termIds, RagCache.KGNode.termId2]
          constructor
          · rintro (hx | hx)
            · exact Or.inr hx
            · exact Or.inl hx
          · rintro (hx | hx)
            · exact Or.inr hx
            · exact Or.inl hx
        rw [hseen]
        simp

/-- Term-node lists contribute exactly their characters to `termIds`. -/
theorem termIds_term_map (l : List Char) :
    RagCache.termIds (l.map RagCache.KGNode.term) = l := by
  induction l with
  | nil => rfl
  | cons c cs ih =>
    simp only [List.map_cons, RagCache.termIds, List.filterMap_cons,
      RagCache.KGNode.termId2]
    rw [← RagCache.termIds]
    rw [ih]

/-- Term-node lists contribute no paper payloads. -/
theorem paperInfos_term_map (l : List Char) :
    RagCache.paperInfos (l.map RagCache.KGNode.term) = [] := by
  induction l with
  | nil => rfl
  | cons c cs ih =>
    simp only [List.map_cons, RagCache.paperInfos, List.filterMap_cons,
      RagCache.KGNode.paperInfo2]
    rw [← RagCache.paperInfos]
    rw [ih]

/-- The paper payloads of an extended node list. -/
theorem paperInfos_append (l1 l2 : List RagCache.KGNode) :
    RagCache.paperInfos (l1 ++ l2) =
      RagCache.paperInfos l1 ++ RagCache.paperInfos l2 := by
  simp [RagCache.paperInfos, List.filterMap_append]

/-- The source loop of `_build_knowledge_graph`, from an arbitrary start
graph: edges accumulate one `contains` edge per character occurrence,
paper payloads accumulate one per source, and term ids accumulate the
first-seen filter of the character stream. -/
theorem build_graph_go (sources : List Schemas.ArxivSource) :
    ∀ g : RagCache.KnowledgeGraph,
    (sources.foldl
      (fun g s =>
        RagCache.addTerms
          { g with nodes := g.nodes ++
              [RagCache.KGNode.paper s.doc_id s.title s.year] }
          s.doc_id s.technical_terms.toList)
      g).edges = g.edges ++ RagCache.edgesSpec sources ∧
    RagCache.paperInfos
      (sources.foldl
        (fun g s =>
          RagCache.addTerms
            { g with nodes := g.nodes ++
                [RagCache.KGNode.paper s.doc_id s.title s.year] }
            s.doc_id s.technical_terms.toList)
        g).nodes =
      RagCache.paperInfos g.nodes ++
        sources.map (fun s => (s.doc_id, s.title, s.year)) ∧
    RagCache.termIds
      (sources.foldl
        (fun g s =>
          RagCache.addTerms
            { g with nodes := g.nodes ++
                [RagCache.KGNode.paper s.doc_id s.title s.year] }
            s.doc_id s.technical_terms.toList)
        g).nodes =
      RagCache.termIds g.nodes ++
        RagCache.newChars (RagCache.termIds g.nodes)
          (RagCache.charStream sources) := by
  induction sources with
  | nil =>
    intro g
    simp [RagCache.edgesSpec, RagCache.charStream, RagCache.newChars]
  | cons s rest ih =>
    intro g
    simp only [List.foldl_cons]
    obtain ⟨hae, han⟩ := addTerms_spec s.doc_id s.technical_terms.toList
      { g with nodes := g.nodes ++
          [RagCache.KGNode.paper s.doc_id s.title s.year] }
    obtain ⟨ihe, ihp, iht⟩ := ih
      (RagCache.addTerms
        { g with nodes := g.nodes ++
            [RagCache.KGNode.paper s.doc_id s.title s.year] }
        s.doc_id s.technical_terms.toList)
    have hterm1 : RagCache.termIds
        (g.nodes ++ [RagCache.KGNode.paper s.doc_id s.title s.year]) =
        RagCache.termIds g.nodes := by
      rw [termIds_append]
      simp [RagCache.termIds, RagCache.KGNode.termId2]
    have hnodes : RagCache.termIds
        (RagCache.addTerms
          { g with nodes := g.nodes ++
              [RagCache.KGNode.paper s.doc_id s.title s.year] }
          s.doc_id s.technical_terms.toList).nodes =
        RagCache.termIds g.nodes ++
          RagCache.newChars (RagCache.termIds g.nodes)
            s.technical_terms.toList := by
      rw [han]
      dsimp only
      rw [termIds_append, termIds_term_map, termIds_append]
      simp [RagCache.termIds, RagCache.KGNode.termId2, hterm1]
    have hpapers : RagCache.paperInfos
        (RagCache.addTerms
          { g with nodes := g.nodes ++
              [RagCache.KGNode.paper s.doc_id s.title s.year] }
          s.doc_id s.technical_terms.toList).nodes =
        RagCache.paperInfos g.nodes ++ [(s.doc_id, s.title, s.year)] := by
      rw [han]
      dsimp only
      rw [paperInfos_append, paperInfos_term_map, paperInfos_append]
      simp [RagCache.paperInfos, RagCache.KGNode.paperInfo2]
    refine ⟨?_, ?_, ?_⟩
    · rw [ihe, hae]
      dsimp only
      simp only [RagCache.edgesSpec, List.flatMap_cons, List.append_assoc]
    · rw [ihp, hpapers]
      simp
    · rw [iht, hnodes]
      simp only [RagCache.charStream, List.flatMap_cons]
      rw [newChars_append]
      rw [List.append_assoc]
      refine congrArg (RagCache.termIds g.nodes ++ ·) ?_
      refine congrArg (RagCache.newChars (RagCache.termIds g.nodes)
        s.technical_terms.toList ++ ·) ?_
      refine newChars_congr _ _ ?_ _
      intro x
      simp only [List.mem_append]
      tauto

/-- C9 (amended): the knowledge graph built by `_build_knowledge_graph`
contains exactly one paper node per retrieved source (in order), one term
node per distinct character of the sources' `technical_terms` strings (in
first-seen order — the Python code iterates the string character by
character, not term by term), and one `contains` edge per character
occurrence, so a repeated character within one source's string produces
duplicate edges (see the counterexample). -/
theorem c9_knowledge_graph (sources : List Schemas.ArxivSource) :
    (RagCache.build_knowledge_graph sources).edges =
      RagCache.edgesSpec sources ∧
    RagCache.paperInfos (RagCache.build_knowledge_graph sources).nodes =
      sources.map (fun s => (s.doc_id, s.title, s.year)) ∧
    RagCache.termIds (RagCache.build_knowledge_graph sources).nodes =
      RagCache.newChars [] (RagCache.charStream sources) := by
  obtain ⟨he, hp, ht⟩ := build_graph_go sources { nodes := [], edges := [] }
  unfold RagCache.build_knowledge_graph
  refine ⟨?_, ?_, ?_⟩
  · rw [he]
    rfl
  · rw [hp]
    rfl
  · rw [ht]
    rfl

/-- Counterexample for C9 as frozen: a single source whose
`technical_terms` string is `aa` produces two identical `contains` edges
(one per character occurrence), not exactly one edge per distinct
technical term. -/
theorem c9_counterexample :
    (RagCache.build_knowledge_graph [Samples.source 1 "f" "aa"]).edges =
      [{ source := 1, target := 'a' }, { source := 1, target := 'a' }] ∧
    ¬ (RagCache.build_knowledge_graph [Samples.source 1 "f" "aa"]).edges.Nodup ∧
    (RagCache.build_knowledge_graph [Samples.source 1 "f" "aa"]).edges.dedup.length
      = 1 := by
  refine ⟨rfl, by decide, by decide⟩

/-- C8 (code bug evaluated): on a cache miss whose engine response carries
one source, the caching step itself raises — `_compute_context_key` joins
the integer doc ids with `str.join`, a `TypeError` — so the cached
assistant's `answer_question` surfaces an error that the wrapped engine
(which returned successfully) never raised, contradicting both the claim
and the code's own `List[str]` annotation. -/
theorem c8_cache_layer_type_error :
    (RagCache.CachedResearchAssistant.answer_question
      { engine := fun _ => .ok
          { question := "q", answer := "ans"
            sources := [Samples.source 0 "f" ""]
            search_metrics :=
              { start_time := 0, embedding_time := 0, search_time := 0
                total_time := 0, num_results := 1, avg_score := 0 }
            model_metrics :=
              { start_time := 0, context_time := 0, inference_time := 0
                total_time := 0 } }
        response_cache := RagCache.LRUCache.empty RagCache.CacheEntry 1000
        context_cache := RagCache.LRUCache.empty RagCache.CachedContext 1000
        cache_hits := 0, cache_misses := 0, total_queries := 0 }
      "t" "q").1 =
      .error "sequence item 0: expected str instance, int found" ∧
    RagCache.computeContextKey [0] =
      .error "sequence item 0: expected str instance, int found" := by
  exact ⟨rfl, rfl⟩
